import Mathlib

/-!
Verification development for a PySpark data-validation code base.

The development shallowly embeds three components as executable Lean
definitions over list-based relations:

* `Flatten`   — `src/validators/flatten_utils.py` (struct flattening and
  outer array explosion to a fixed point, with an iteration bound);
* `Engine`    — `src/validators/dataframe_validator.py` (the rule-driven
  validation engine: header rules, per-row rule masks under SQL
  three-valued logic, fail-fast semantics, and the final anti-join);
* `RuleSchema` — `src/validators/rule_schema_validator.py` (the rule-set
  normalizer and the relaxed-JSON loader).

Rows are modelled as association lists of column name to value, DataFrames
as a schema plus a list of rows, and Spark column expressions as functions
into `Option Bool` (three-valued logic: `none` is SQL NULL).
-/

namespace Flatten

/-- Spark data types restricted to what the flattening code inspects:
primitive, struct (ordered named fields) and array. -/
inductive NType where
  | prim : NType
  | strct : List (String × NType) → NType
  | arr : NType → NType

/-- Nested values: SQL null, an atom, a struct value (positional fields),
or an array value. -/
inductive NVal where
  | null : NVal
  | atom : String → NVal
  | strct : List NVal → NVal
  | arr : List NVal → NVal

/-- A schema is the ordered list of top-level columns with their types. -/
abbrev Schema := List (String × NType)

/-- A DataFrame: a schema and rows given positionally against it. -/
structure NDF where
  schema : Schema
  rows : List (List NVal)

/-- `any(isinstance(f.dataType, StructType) for f in schema_fields)`. -/
def hasStructs (sch : Schema) : Bool :=
  sch.any fun f => match f.2 with | .strct _ => true | _ => false

/-- One flattening pass over the schema: each struct column `C` with fields
`f1..fn` is replaced by columns `C<sep>f1 .. C<sep>fn`; other columns are
kept (`_flatten_structs_optimized`, the column-list construction). -/
def flattenStepSchema (sep : String) (sch : Schema) : Schema :=
  sch.flatMap fun f => match f.2 with
    | .strct fs => fs.map fun g => (f.1 ++ sep ++ g.1, g.2)
    | _ => [f]

/-- Value of field `i` of a struct value; selecting a field of a null
struct yields null (Spark `col("a.b")` on a null struct). -/
def getField (v : NVal) (i : Nat) : NVal :=
  match v with
  | .strct vs => vs.getD i .null
  | _ => .null

/-- One flattening pass over a row, parallel to `flattenStepSchema`. -/
def flattenStepRow (sch : Schema) (row : List NVal) : List NVal :=
  (sch.zip row).flatMap fun p => match p.1.2 with
    | .strct fs => (List.range fs.length).map fun i => getField p.2 i
    | _ => [p.2]

/-- One `select` of `_flatten_structs_optimized` applied to a DataFrame. -/
def flattenIter (sep : String) (df : NDF) : NDF :=
  ⟨flattenStepSchema sep df.schema, df.rows.map (flattenStepRow df.schema)⟩

/-- The fuel-indexed loop of `_flatten_structs_optimized`: check for struct
columns, return the DataFrame if none remain, otherwise do one pass; when
the fuel (the source's `max_depth`) is exhausted, fail. -/
def flattenStructsFuel (sep : String) : Nat → NDF → Except String NDF
  | 0, _ => .error "Maximum flattening depth (100) exceeded. This likely indicates a circular reference or extremely deep nesting in the schema."
  | d + 1, df =>
    if hasStructs df.schema then flattenStructsFuel sep d (flattenIter sep df)
    else .ok df

/-- `_flatten_structs_optimized(df, sep)` with the default `max_depth=100`. -/
def flattenStructs (sep : String) (df : NDF) : Except String NDF :=
  flattenStructsFuel sep 100 df

/-- Is a type an array of structs (the explosion targets)? -/
def isArrStruct : NType → Bool
  | .arr (.strct _) => true
  | _ => false

/-- `F.explode_outer` applied to the column at position `idx` of a row:
one output row per array element; a null or empty array contributes one
row with the column set to null. -/
def explodeRowAt (idx : Nat) (row : List NVal) : List (List NVal) :=
  match row.getD idx .null with
  | .arr es => if es.isEmpty then [row.set idx .null] else es.map fun e => row.set idx e
  | _ => [row.set idx .null]

/-- Element type of an array type (identity on anything else). -/
def elemType : NType → NType
  | .arr t => t
  | t => t

/-- `df.withColumn(f.name, F.explode_outer(F.col(f.name)))`: the column
keeps its position and name, its type becomes the element type, and each
row is replaced by its exploded rows. -/
def explodeAt (idx : Nat) (df : NDF) : NDF :=
  let f := df.schema.getD idx ("", .prim)
  ⟨df.schema.set idx (f.1, elemType f.2), df.rows.flatMap (explodeRowAt idx)⟩

/-- The explosion loop of `flatten_all`: find the first array-of-struct
column, explode it, re-flatten, and iterate; completing `max_iterations`
explosions without running out of such columns fails. -/
def explodeLoop (sep : String) : Nat → NDF → List String → Except String (NDF × List String)
  | 0, _, _ => .error "Maximum array explosion iterations (100) exceeded. This likely indicates circular references or extremely deep nesting."
  | n + 1, df, acc =>
    match df.schema.findIdx? (fun f => isArrStruct f.2) with
    | none => .ok (df, acc)
    | some i => do
      let nm := (df.schema.getD i ("", .prim)).1
      let df2 ← flattenStructs sep (explodeAt i df)
      explodeLoop sep n df2 (acc ++ [nm])

/-- `flatten_all(df, sep, explode_arrays)`: flatten all structs, then
optionally explode array-of-struct columns to a fixed point, returning the
flat DataFrame and the exploded column names in processing order. -/
def flattenAll (sep : String) (explodeArrays : Bool) (df : NDF) : Except String (NDF × List String) := do
  let df0 ← flattenStructs sep df
  if explodeArrays then explodeLoop sep 100 df0 [] else .ok (df0, [])

/-- `max(1, array length)` of a value: the number of rows a value
contributes under outer explosion (null and non-arrays count as length 0
arrays, hence contribute one row). -/
def arity (v : NVal) : Nat :=
  max 1 (match v with | .arr es => es.length | _ => 0)

/-- A one-column, one-row flat relation (no structs, no arrays). -/
def dfFlatW : NDF := ⟨[("id", .prim)], [[.atom "1"]]⟩

/-- A relation with two array columns: lengths (2, 3) and (null, empty). -/
def dfExpW : NDF :=
  ⟨[("a", .arr (.strct [("x", .prim)])), ("b", .arr .prim)],
   [[.arr [.strct [.atom "1"], .strct [.atom "2"]], .arr [.atom "p", .atom "q", .atom "r"]],
    [.null, .arr []]]⟩

end Flatten

/-- Characters stripped by Python `str.strip()` (ASCII whitespace). -/
def isPyWs (c : Char) : Bool :=
  c == ' ' || c == '\t' || c == '\n' || c == '\r' || c == '\x0b' || c == '\x0c'

/-- Strip characters satisfying `p` from both ends of a char list. -/
def trimBy (p : Char → Bool) (cs : List Char) : List Char :=
  ((cs.dropWhile p).reverse.dropWhile p).reverse

/-- Python `str.strip()`. -/
def pyStrip (s : String) : String := String.mk (trimBy isPyWs s.data)

/-- Spark `F.trim`: strips space characters from both ends. -/
def sparkTrim (s : String) : String := String.mk (trimBy (fun c => c == ' ') s.data)

/-- A scaled decimal `m * 10^(-e)`: the executable number representation
used for column values, rule bounds and JSON numbers (exact, and — unlike
rationals — fully evaluable inside the kernel). -/
structure DecNum where
  m : Int
  e : Nat
deriving DecidableEq

namespace DecNum

/-- Value comparison `a ≤ b` by cross multiplication. -/
def le (a b : DecNum) : Bool :=
  decide (a.m * ((10 : Int) ^ b.e) ≤ b.m * ((10 : Int) ^ a.e))

/-- Value comparison `a < b`. -/
def lt (a b : DecNum) : Bool := !le b a

/-- Value equality. -/
def veq (a b : DecNum) : Bool :=
  a.m * ((10 : Int) ^ b.e) == b.m * ((10 : Int) ^ a.e)

/-- Integer part, truncated toward zero (Python `int(x)`). -/
def trunc (a : DecNum) : Int :=
  let q := a.m.natAbs / 10 ^ a.e
  if 0 ≤ a.m then (q : Int) else -(q : Int)

/-- Decimal rendering: mantissa with an explicit scale suffix when
fractional. -/
def repr (a : DecNum) : String :=
  if a.e == 0 then toString a.m else toString a.m ++ "e-" ++ toString a.e

/-- An integer as a scaled decimal. -/
def ofInt (n : Int) : DecNum := ⟨n, 0⟩

end DecNum

/-- Digits of a char list read as a natural number. -/
def digitsToNat (cs : List Char) : Nat :=
  cs.foldl (fun acc c => acc * 10 + (c.toNat - '0'.toNat)) 0

/-- Parse a plain decimal string `[+-]?digits[.digits]` (after stripping
surrounding whitespace) to a scaled decimal; `none` when the text is not
numeric.  Models both the Spark string-to-number casts and Python
`float()` on the numeral shapes the rules use. -/
def parseDecString (s : String) : Option DecNum :=
  let cs := trimBy isPyWs s.data
  let signed : Bool × List Char :=
    match cs with
    | '-' :: t => (true, t)
    | '+' :: t => (false, t)
    | t => (false, t)
  let d1 := signed.2.takeWhile Char.isDigit
  let rest := signed.2.dropWhile Char.isDigit
  let mk : List Char → List Char → DecNum := fun w f =>
    let mag : Int := ((digitsToNat w * 10 ^ f.length + digitsToNat f : Nat) : Int)
    ⟨if signed.1 then -mag else mag, f.length⟩
  match rest with
  | [] => if d1.isEmpty then none else some (mk d1 [])
  | '.' :: t =>
    let d2 := t.takeWhile Char.isDigit
    let rest2 := t.dropWhile Char.isDigit
    if rest2.isEmpty && !(d1.isEmpty && d2.isEmpty) then some (mk d1 d2) else none
  | _ => none

namespace Engine

/-- Cell values of a flat relation: SQL null, string, numeric or boolean.
Numeric values are compared representationally (a scaled decimal). -/
inductive Val where
  | vnull : Val
  | vstr : String → Val
  | vnum : DecNum → Val
  | vbool : Bool → Val
deriving DecidableEq

/-- A row is an association list from column name to value. -/
abbrev Row := List (String × Val)

/-- Value of column `c` in a row (first binding wins, null if absent). -/
def rget (r : Row) (c : String) : Val :=
  match r.find? (fun p => p.1 == c) with
  | some p => p.2
  | none => .vnull

/-- A DataFrame: column names plus rows. -/
structure DF where
  cols : List String
  rows : List Row
deriving DecidableEq

/-- SQL NOT under three-valued logic (`none` is NULL). -/
def tnot : Option Bool → Option Bool := Option.map not

/-- SQL AND under three-valued logic: false dominates, NULL is unknown. -/
def tand : Option Bool → Option Bool → Option Bool
  | some false, _ => some false
  | _, some false => some false
  | some true, some true => some true
  | _, _ => none

/-- SQL equality `=`: NULL on either side yields NULL. -/
def sqlEq (a b : Val) : Option Bool :=
  match a, b with
  | .vnull, _ => none
  | _, .vnull => none
  | a, b => some (a == b)

/-- Spark `cast("string")`: NULL stays NULL. -/
def castString : Val → Option String
  | .vnull => none
  | .vstr s => some s
  | .vnum q => some q.repr
  | .vbool b => some (if b then "true" else "false")

/-- `cast("string")` as a column value. -/
def castStringVal (v : Val) : Val :=
  match castString v with
  | some s => .vstr s
  | none => .vnull

/-- Spark `cast("double")`: numbers unchanged, strings parsed, booleans
1/0, NULL or unparsable input gives NULL. -/
def castDouble : Val → Option DecNum
  | .vnull => none
  | .vnum q => some q
  | .vstr s => parseDecString s
  | .vbool b => some (.ofInt (if b then 1 else 0))

/-- Rules as dispatched by the engine's `HANDLERS` registry; `other` is a
type string with no registered handler. -/
inductive ERule where
  | headers (name : Option String) (columns : List String)
  | nonEmpty (name : Option String) (columns : List String)
  | range (name : Option String) (column : String) (lo hi : DecNum)
  | enum (name : Option String) (column : String) (allowed : List Val)
  | length (name : Option String) (column : String) (lo hi : Option Int)
  | regex (name : Option String) (column : String) (pattern : String)
  | unique (name : Option String) (columns : List String)
  | decimal (name : Option String) (column : String) (precision scale : Nat)
      (exact : Bool) (lo hi : Option DecNum)
  | other (name : Option String) (rtype : String)
deriving DecidableEq

/-- `rule.get("name")`. -/
def ERule.name? : ERule → Option String
  | .headers n _ => n
  | .nonEmpty n _ => n
  | .range n _ _ _ => n
  | .enum n _ _ => n
  | .length n _ _ _ => n
  | .regex n _ _ => n
  | .unique n _ => n
  | .decimal n _ _ _ _ _ _ => n
  | .other n _ => n

/-- `rule.get("type")`. -/
def ERule.typeStr : ERule → String
  | .headers _ _ => "headers"
  | .nonEmpty _ _ => "non_empty"
  | .range _ _ _ _ => "range"
  | .enum _ _ _ => "enum"
  | .length _ _ _ _ => "length"
  | .regex _ _ _ => "regex"
  | .unique _ _ => "unique"
  | .decimal _ _ _ _ _ _ _ => "decimal"
  | .other _ t => t

/-- `r.get("type") == "headers"`. -/
def ERule.isHeaders : ERule → Bool
  | .headers _ _ => true
  | _ => false

/-- The `_msg` helper: `"[<name or unnamed>] <col>: <extra>"`. -/
def ruleMsg (nm : Option String) (colname extra : String) : String :=
  "[" ++ nm.getD "unnamed" ++ "] " ++ colname ++ ": " ++ extra

/-- The row built by `_collect_error` for a violating source row:
id-column values, rule name (default empty), offending column, the
offending value cast to string, and the `_msg` message. -/
def mkErrRow (idCols : List String) (nm : Option String) (colname : String) (r : Row) : Row :=
  idCols.map (fun c => (c, rget r c)) ++
    [("rule", Val.vstr (nm.getD "")), ("column", Val.vstr colname),
     ("value", castStringVal (rget r colname)),
     ("message", Val.vstr (ruleMsg nm colname "validation failed"))]

/-- `_collect_error`: rows where the mask is not true are violations. -/
def collectError (idCols : List String) (df : DF) (mask : Row → Option Bool)
    (nm : Option String) (colname : String) : List Row :=
  (df.rows.filter (fun r => tnot (mask r) == some true)).map (mkErrRow idCols nm colname)

/-- One diagnostic row of `_validate_headers` for a missing column. -/
def mkHdrRow (idCols : List String) (nm : Option String) (m : String) : Row :=
  idCols.map (fun c => (c, Val.vnull)) ++
    [("rule", Val.vstr (nm.getD "headers")), ("column", Val.vstr m), ("value", Val.vnull),
     ("message", Val.vstr ("[headers] missing column " ++ m))]

/-- `_meta_error`: the single-row partial for an unknown rule type. -/
def mkMetaRow (idCols : List String) (nm : Option String) (text : String) : Row :=
  idCols.map (fun c => (c, Val.vnull)) ++
    [("rule", Val.vstr (nm.getD "")), ("column", Val.vnull), ("value", Val.vnull),
     ("message", Val.vstr text)]

/-- `non_empty` mask for one column: non-null and trimmed value nonempty. -/
def maskNonEmpty (c : String) (r : Row) : Option Bool :=
  tand (some (rget r c != Val.vnull))
    ((castString (rget r c)).map (fun s => sparkTrim s != ""))

/-- `range` mask: castable to double and within `[lo, hi]`. -/
def maskRange (c : String) (lo hi : DecNum) (r : Row) : Option Bool :=
  let n := castDouble (rget r c)
  tand (tand (some n.isSome) (n.map (fun q => lo.le q))) (n.map (fun q => q.le hi))

/-- Spark `Column.isin`: NULL input is NULL; otherwise true on a match,
NULL when no match but the list holds a NULL, false otherwise. -/
def sqlIsin (v : Val) (allowed : List Val) : Option Bool :=
  match v with
  | .vnull => none
  | v =>
    if allowed.any (fun a => a != Val.vnull && a == v) then some true
    else if allowed.contains Val.vnull then none
    else some false

/-- `length` mask: `F.length` of the column (NULL on NULL) within bounds;
absent bounds default to 0 and 1000000. -/
def maskLength (c : String) (lo hi : Option Int) (r : Row) : Option Bool :=
  let l := (castString (rget r c)).map (fun s => (s.length : Int))
  tand (l.map (fun n => decide (lo.getD 0 ≤ n))) (l.map (fun n => decide (n ≤ hi.getD 1000000)))

/-- First run of digits immediately preceded by a dot: the model of
`regexp_extract(value, "(?<=\.)\d+", 0)`. -/
def fracDigitsAux : List Char → String
  | [] => ""
  | '.' :: rest =>
    let ds := rest.takeWhile Char.isDigit
    if ds.isEmpty then fracDigitsAux rest else String.mk ds
  | _ :: rest => fracDigitsAux rest

/-- `fracDigitsAux` on a string. -/
def fracDigits (s : String) : String := fracDigitsAux s.data

/-- HALF_UP division of `m` by `d` (rounds away from zero on a half). -/
def roundHalfUpDiv (m : Int) (d : Nat) : Int :=
  let q := (m.natAbs + d / 2) / d
  if 0 ≤ m then (q : Int) else -(q : Int)

/-- Cast of a scaled decimal to `Decimal(p, s)`: rescale to `s` fractional
digits with HALF_UP rounding; NULL when the result needs more than `p`
digits. -/
def castDecD (p s : Nat) (v : DecNum) : Option DecNum :=
  let n : Int := if v.e ≤ s then v.m * ((10 : Int) ^ (s - v.e))
                 else roundHalfUpDiv v.m (10 ^ (v.e - s))
  if n.natAbs < 10 ^ p then some ⟨n, s⟩ else none

/-- Spark `cast(DecimalType(p, s))` on a column value. -/
def castDec (p s : Nat) (v : Val) : Option DecNum :=
  (castDouble v).bind (castDecD p s)

/-- Three-valued `>=` between two nullable decimals. -/
def cmpGe (a b : Option DecNum) : Option Bool :=
  match a, b with
  | some x, some y => some (y.le x)
  | _, _ => none

/-- Three-valued `<=` between two nullable decimals. -/
def cmpLe (a b : Option DecNum) : Option Bool :=
  match a, b with
  | some x, some y => some (x.le y)
  | _, _ => none

/-- The `exact_scale` check of `_validate_decimal` on a column value:
length of the extracted fractional digits, with an empty extraction
replaced by the string "0". -/
def scaleOkV (s : Nat) (v : Val) : Option Bool :=
  ((castString v).map fracDigits).map (fun f => decide ((if f == "" then "0" else f).length ≤ s))

/-- `decimal` mask on a column value: castable (and, with `exact_scale`,
textual fractional digits within scale), then optional bounds compared
against the cast value. -/
def maskDecimalV (p s : Nat) (exact : Bool) (lo hi : Option DecNum) (v : Val) : Option Bool :=
  let dec := castDec p s v
  let m1 : Option Bool :=
    if exact then tand (some dec.isSome) (scaleOkV s v) else some dec.isSome
  let m2 : Option Bool :=
    match lo with
    | none => m1
    | some b => tand m1 (cmpGe dec (castDecD p s b))
  match hi with
  | none => m2
  | some b => tand m2 (cmpLe dec (castDecD p s b))

/-- `decimal` mask for the rule's column. -/
def maskDecimal (c : String) (p s : Nat) (exact : Bool) (lo hi : Option DecNum) (r : Row) : Option Bool :=
  maskDecimalV p s exact lo hi (rget r c)

/-- Fractional digit count as `_validate_decimal` computes it: the length
of the digits after the first dot, except that a value with no fractional
digits counts as 1 (the length of the substituted literal "0"). -/
def fracCount1 (t : String) : Nat :=
  if fracDigits t == "" then 1 else (fracDigits t).length

/-- Row-pass predicate of the decimal rule: the value casts into
`Decimal(p, s)` without overflow; with `exact_scale`, `fracCount1` of the
textual value is within the scale; and the cast value respects the
bounds (an unrepresentable bound does not constrain). -/
def decimalPass (p s : Nat) (exact : Bool) (lo hi : Option DecNum) (v : Val) : Bool :=
  match castDec p s v with
  | none => false
  | some q =>
    (!exact || decide (fracCount1 ((castString v).getD "") ≤ s)) &&
    ((match lo with
      | none => true
      | some b => match castDecD p s b with | some m => m.le q | none => true) &&
     (match hi with
      | none => true
      | some b => match castDecD p s b with | some m => q.le m | none => true))

/-- Key tuple of a row for a `unique` rule. -/
def keyOf (cols : List String) (r : Row) : List Val :=
  cols.map (rget r)

/-- Pairwise SQL-equality of two key tuples being all true (the explicit
join condition built from `F.col == F.col` conjunctions). -/
def sqlEqList (a b : List Val) : Bool :=
  (a.zip b).all (fun p => sqlEq p.1 p.2 == some true)

/-- `_validate_unique`: keys grouped (group-by treats NULLs as equal),
keys with count > 1 kept, then an inner join with null-rejecting equality;
each offending row yields one diagnostic, capped at 1000. -/
def runUnique (idCols : List String) (df : DF) (nm : Option String) (cols : List String) : List Row :=
  let keys := df.rows.map (keyOf cols)
  let dupKeys := keys.dedup.filter (fun k => 1 < keys.count k)
  let offending := df.rows.filter (fun r => dupKeys.any (fun k => sqlEqList (keyOf cols r) k))
  let colJoin := String.intercalate "," cols
  (offending.map (fun r =>
    idCols.map (fun c => (c, rget r c)) ++
      [("rule", Val.vstr (nm.getD "unique")), ("column", Val.vstr colJoin),
       ("value", Val.vstr (String.intercalate "||" ((keyOf cols r).filterMap castString))),
       ("message", Val.vstr (ruleMsg nm colJoin "duplicate key"))])).take 1000

/-- `_validate_headers`: required columns absent from the schema, one
diagnostic row each (a single partial; no partial when nothing is
missing). -/
def runHeaders (idCols : List String) (df : DF) (nm : Option String) (cols : List String) : List (List Row) :=
  if (cols.filter (fun c => !df.cols.contains c)).isEmpty then []
  else [(cols.filter (fun c => !df.cols.contains c)).map (mkHdrRow idCols nm)]

/-- `_run`: dispatch a rule to its handler, or produce the meta-error
partial for an unknown type. -/
def runRule (rlike : String → String → Bool) (idCols : List String) (df : DF) : ERule → List (List Row)
  | .headers nm cols => runHeaders idCols df nm cols
  | .nonEmpty nm cols => cols.map (fun c => collectError idCols df (maskNonEmpty c) nm c)
  | .range nm c lo hi => [collectError idCols df (maskRange c lo hi) nm c]
  | .enum nm c allowed => [collectError idCols df (fun r => sqlIsin (rget r c) allowed) nm c]
  | .length nm c lo hi => [collectError idCols df (maskLength c lo hi) nm c]
  | .regex nm c pat =>
    [collectError idCols df (fun r => (castString (rget r c)).map (fun s => rlike pat s)) nm c]
  | .unique nm cols => [runUnique idCols df nm cols]
  | .decimal nm c p s exact lo hi => [collectError idCols df (maskDecimal c p s exact lo hi) nm c]
  | .other nm t => [[mkMetaRow idCols nm ("Unknown rule type: " ++ t)]]

/-- Validator configuration (`id_cols`, `fail_fast`, `fail_mode`). -/
structure VCfg where
  idCols : List String
  failFast : Bool
  failMode : String

/-- A raised `ValueError` carrying its tag and the collected sample. -/
inductive VErr where
  | valueError (tag : String) (sample : List Row)
deriving DecidableEq

/-- Pass 1 of `validate`: scan header rules in document order; a non-empty
header partial under fail-fast either raises (10-row sample) or returns
`(False, df, capped partial)`; otherwise the pass has no effect. -/
def headersScan (rlike : String → String → Bool) (cfg : VCfg) (df : DF) (limit : Nat) :
    List ERule → Except VErr (Option (Bool × DF × List Row))
  | [] => .ok none
  | r :: rs =>
    if r.isHeaders then
      match (runRule rlike cfg.idCols df r).find? (fun v => !v.isEmpty) with
      | some v =>
        if cfg.failFast then
          if cfg.failMode == "raise" then
            .error (.valueError "[headers] validation failed" (v.take 10))
          else .ok (some (false, df, v.take limit))
        else headersScan rlike cfg df limit rs
      | none => headersScan rlike cfg df limit rs
    else headersScan rlike cfg df limit rs

/-- Pass 2 of `validate`: scan non-header rules; under fail-fast the first
non-empty partial raises or returns; otherwise each rule's partials are
capped at the error limit and accumulated. -/
def dataScan (rlike : String → String → Bool) (cfg : VCfg) (df : DF) (limit : Nat) :
    List ERule → Except VErr ((Bool × DF × List Row) ⊕ List (List Row))
  | [] => .ok (.inr [])
  | r :: rs =>
    if r.isHeaders then dataScan rlike cfg df limit rs
    else
      let parts := runRule rlike cfg.idCols df r
      if parts.isEmpty then dataScan rlike cfg df limit rs
      else
        match if cfg.failFast then parts.find? (fun v => !v.isEmpty) else none with
        | some v =>
          if cfg.failMode == "raise" then
            .error (.valueError ("[" ++ r.typeStr ++ ":" ++ (r.name?).getD "" ++ "] failed") (v.take 10))
          else .ok (.inl (false, df, v.take limit))
        | none =>
          (dataScan rlike cfg df limit rs).map (fun res =>
            match res with
            | .inl e => .inl e
            | .inr vs => .inr (parts.map (fun v => v.take limit) ++ vs))

/-- Does a row of the relation match a distinct diagnostics id tuple under
the anti-join condition? -/
def idsMatchT (idCols : List String) (r : Row) (t : List Val) : Bool :=
  sqlEqList (idCols.map (rget r)) t

/-- Does a row match a diagnostics row on all id columns (null-rejecting
SQL equality)? -/
def idsMatch (idCols : List String) (r e : Row) : Bool :=
  idCols.all (fun c => sqlEq (rget r c) (rget e c) == some true)

/-- `_finalize`: union the partials, anti-join the relation against the
distinct diagnostics id tuples when id columns are configured, and report
validity as emptiness of the diagnostics. -/
def finalize (cfg : VCfg) (df : DF) (violations : List (List Row)) : Bool × DF × List Row :=
  let errs := violations.flatten
  let valid :=
    if cfg.idCols.isEmpty then df
    else
      let badIds := (errs.map (fun e => cfg.idCols.map (rget e))).dedup
      DF.mk df.cols (df.rows.filter (fun r => !(badIds.any (idsMatchT cfg.idCols r))))
  (errs.isEmpty, valid, errs)

/-- `SparkDataValidator.validate`: header pass, data pass, finalize. -/
def validateE (rlike : String → String → Bool) (cfg : VCfg) (df : DF) (rules : List ERule)
    (limit : Nat) : Except VErr (Bool × DF × List Row) :=
  match headersScan rlike cfg df limit rules with
  | .error e => .error e
  | .ok (some early) => .ok early
  | .ok none =>
    match dataScan rlike cfg df limit rules with
    | .error e => .error e
    | .ok (.inl early) => .ok early
    | .ok (.inr vs) => .ok (finalize cfg df vs)

/-- The capped per-rule partials accumulated by the data pass in collect
mode. -/
def collectViolations (rlike : String → String → Bool) (idCols : List String) (df : DF)
    (limit : Nat) (rules : List ERule) : List (List Row) :=
  rules.flatMap (fun r =>
    if r.isHeaders then []
    else (runRule rlike idCols df r).map (fun v => v.take limit))

/-- Concrete relation for instantiating the collect-mode theorems. -/
def dfC1W : DF :=
  ⟨["id", "c"], [[("id", .vstr "1"), ("c", .vstr "")], [("id", .vstr "2"), ("c", .vstr "ok")]]⟩

/-- Collect-mode configuration over id column `id`. -/
def cfgCollect : VCfg := ⟨["id"], false, "return"⟩

/-- A single `non_empty` rule over column `c`. -/
def rulesC1W : List ERule := [.nonEmpty (some "ne") ["c"]]

/-- Diagnostics produced by `rulesC1W` on `dfC1W`. -/
def errsC1W : List Row := [mkErrRow ["id"] (some "ne") "c" [("id", .vstr "1"), ("c", .vstr "")]]

/-- Valid relation produced by `rulesC1W` on `dfC1W`. -/
def vdfC1W : DF := ⟨["id", "c"], [[("id", .vstr "2"), ("c", .vstr "ok")]]⟩

/-- One-row, one-column relation used in the headers scenarios. -/
def dfHdr : DF := ⟨["a"], [[("a", Val.vstr "x")]]⟩

/-- Fail-fast return-mode configuration over id column `a`. -/
def cfgFF : VCfg := ⟨["a"], true, "return"⟩

/-- A headers rule requiring the absent column `b`. -/
def hdrRuleW : ERule := .headers (some "h") ["b"]

/-- A range rule on column `a`. -/
def rangeRuleW : ERule := .range (some "r") "a" (.ofInt 0) (.ofInt 100)

/-- Collect-mode configuration over id column `a`. -/
def cfgCollectA : VCfg := ⟨["a"], false, "return"⟩

/-- Diagnostics of the headers rule `hdrRuleW` on `dfHdr`. -/
def errsHdrW : List Row := [mkHdrRow ["a"] (some "h") "b"]

/-- One-row relation whose value column is null (enum counterexample). -/
def dfC7x : DF := ⟨["id", "c"], [[("id", .vstr "1"), ("c", .vnull)]]⟩

/-- One-row relation holding the textual value "123". -/
def dfC8x : DF := ⟨["id", "v"], [[("id", .vstr "1"), ("v", .vstr "123")]]⟩

/-- Two-row relation holding the textual values "12.345" and "12.34". -/
def dfC8w : DF :=
  ⟨["id", "v"], [[("id", .vstr "1"), ("v", .vstr "12.345")], [("id", .vstr "2"), ("v", .vstr "12.34")]]⟩

/-- A fixed trivial regex matcher used to instantiate the engine at
concrete inputs. -/
def rlikeNone : String → String → Bool := fun _ _ => false

end Engine

deriving instance DecidableEq for Except

namespace RuleSchema

/-- JSON values as produced by `json.loads`: numbers are scaled decimals,
objects keep key order. -/
inductive Json where
  | null : Json
  | bool : Bool → Json
  | num : DecNum → Json
  | str : String → Json
  | arr : List Json → Json
  | obj : List (String × Json) → Json

/-- `dict.get`: first binding of a key in an object, `none` elsewhere. -/
def jget (j : Json) (k : String) : Option Json :=
  match j with
  | .obj fs => (fs.find? (fun p => p.1 == k)).map (fun p => p.2)
  | _ => none

/-- Replace the value of an existing key in place, or append a new
binding (Python dict assignment). Non-objects are left unchanged. -/
def jset (j : Json) (k : String) (v : Json) : Json :=
  match j with
  | .obj fs =>
    if fs.any (fun p => p.1 == k) then .obj (fs.map (fun p => if p.1 == k then (k, v) else p))
    else .obj (fs ++ [(k, v)])
  | j => j

/-- Python `repr` of a JSON value (used by `str` on non-strings and by
f-string interpolation of lists). -/
def jsonRepr : Json → String
  | .null => "None"
  | .bool true => "True"
  | .bool false => "False"
  | .num q => q.repr
  | .str s => "\x27" ++ s ++ "\x27"
  | .arr items => "[" ++ String.intercalate ", " (items.attach.map (fun x => jsonRepr x.1)) ++ "]"
  | .obj fields =>
    "\x7b" ++ String.intercalate ", "
      (fields.attach.map (fun x => "\x27" ++ x.1.1 ++ "\x27: " ++ jsonRepr x.1.2)) ++ "\x7d"
decreasing_by
  · have h1 := List.sizeOf_lt_of_mem x.2
    simp only [Json.arr.sizeOf_spec]
    omega
  · have h1 := List.sizeOf_lt_of_mem x.2
    rcases hx : x.1 with ⟨a, b⟩
    rw [hx] at h1
    simp only [Prod.mk.sizeOf_spec] at h1
    simp only [Json.obj.sizeOf_spec]
    omega

/-- Python `str()`. -/
def pyStr : Json → String
  | .str s => s
  | j => jsonRepr j

/-- Python truthiness `bool()`. -/
def pyBool : Json → Bool
  | .null => false
  | .bool b => b
  | .num q => q.m != 0
  | .str s => s != ""
  | .arr l => !l.isEmpty
  | .obj f => !f.isEmpty

/-- Python `int()` on a string: optional sign and digits only. -/
def parseIntString (s : String) : Option Int :=
  let cs := trimBy isPyWs s.data
  let signed : Bool × List Char :=
    match cs with
    | '-' :: t => (true, t)
    | '+' :: t => (false, t)
    | t => (false, t)
  if signed.2.isEmpty || !(signed.2.all Char.isDigit) then none
  else some ((if signed.1 then -1 else 1) * ((digitsToNat signed.2 : Nat) : Int))

/-- Python `float()` on a JSON value (`none` models the raised error). -/
def pyFloat : Json → Option DecNum
  | .num q => some q
  | .str s => parseDecString s
  | .bool b => some (.ofInt (if b then 1 else 0))
  | _ => none

/-- Python `int()` on a JSON value, truncating toward zero. -/
def pyInt : Json → Option Int
  | .num q => some q.trunc
  | .str s => parseIntString s
  | .bool b => some (if b then 1 else 0)
  | _ => none

/-- `_is_number`: `float()` succeeds. -/
def isNumber (j : Json) : Bool := (pyFloat j).isSome

/-- A `ValidationIssue`. -/
structure NIssue where
  rule_name : String
  rule_type : String
  path : String
  level : String
  message : String
deriving DecidableEq

/-- `_err`. -/
def mkErr (rule_name rule_type path msg : String) : NIssue :=
  ⟨rule_name, rule_type, path, "ERROR", msg⟩

/-- `_warn`. -/
def mkWarn (rule_name rule_type path msg : String) : NIssue :=
  ⟨rule_name, rule_type, path, "WARN", msg⟩

/-- Normalizer configuration: the dataset-column hint (`id_cols`),
`fail_fast` and `fail_mode`. -/
structure NCfg where
  datasetColumns : Option (List String)
  failFast : Bool
  failMode : String

/-- The supported rule types. -/
def SUPPORTED : List String :=
  ["headers", "non_empty", "range", "enum", "length", "regex", "unique", "decimal"]

/-- The message of the unsupported-type ERROR. -/
def unsupportedMsg (rtype : String) : String :=
  "Unsupported type \x27" ++ rtype ++
    "\x27. Supported: [\x27headers\x27, \x27non_empty\x27, \x27range\x27, \x27enum\x27, \x27length\x27, \x27regex\x27, \x27unique\x27, \x27decimal\x27]"

/-- Python `repr` of a list of JSON values. -/
def jsonListRepr (items : List Json) : String :=
  "[" ++ String.intercalate ", " (items.map jsonRepr) ++ "]"

/-- `_require_keys`: one ERROR per missing key. -/
def requireKeys (rule : Json) (keys : List String) (path rname rtype : String) : List NIssue :=
  keys.filterMap (fun k =>
    if (jget rule k).isSome then none
    else some (mkErr rname rtype (path ++ "." ++ k) ("Missing required key \x27" ++ k ++ "\x27")))

/-- `_require_list`: the key must hold a non-empty list of non-blank
strings. -/
def requireList (rule : Json) (key : String) (path rname rtype : String) : List NIssue :=
  if (match jget rule key with
      | some (.arr its) =>
        !its.isEmpty && its.all (fun x => match x with | .str s => pyStrip s != "" | _ => false)
      | _ => false) then []
  else [mkErr rname rtype (path ++ "." ++ key)
    ("Provide non-empty list of strings in \x27" ++ key ++ "\x27")]

/-- `_warn_unknown`: columns referenced by a rule but absent from the
dataset hint produce WARNs; no hint (or an empty hint) produces none. -/
def warnUnknown (cfg : NCfg) (rule : Json) (key : String) (rname rtype path : String) : List NIssue :=
  match cfg.datasetColumns with
  | none => []
  | some cs =>
    if cs.isEmpty then []
    else if key == "column" then
      match jget rule "column" with
      | some (.str c) =>
        if cs.contains c then []
        else [mkWarn rname rtype (path ++ ".column")
          ("Column \x27" ++ c ++ "\x27 not in dataset hint")]
      | _ => []
    else
      match (jget rule key).getD (.arr []) with
      | .arr lst =>
        let unknown := lst.filter (fun j => match j with | .str s => !cs.contains s | _ => true)
        if unknown.isEmpty then []
        else [mkWarn rname rtype (path ++ "." ++ key)
          ("Columns not in dataset hint: " ++ jsonListRepr unknown)]
      | _ => []

/-- Python iteration over a JSON value (lists, string characters, object
keys); `none` models the `TypeError` for non-iterables. -/
def jIterL : Json → Option (List Json)
  | .arr its => some its
  | .str s => some (s.data.map (fun ch => .str (String.mk [ch])))
  | .obj fs => some (fs.map (fun p => .str p.1))
  | _ => none

/-- `_validate_headers_rule`. -/
def vHeadersR (cfg : NCfg) (rule : Json) (rname rtype path : String) :
    Except String (Json × List NIssue) :=
  let i1 := requireList rule "columns" path rname rtype
  match cfg.datasetColumns with
  | none => .ok (rule, i1)
  | some cs =>
    if cs.isEmpty then .ok (rule, i1)
    else
      match jIterL ((jget rule "columns").getD (.arr [])) with
      | none => .error "TypeError: object is not iterable"
      | some items =>
        let missing := items.filter (fun j => match j with | .str s => !cs.contains s | _ => true)
        if missing.isEmpty then .ok (rule, i1)
        else .ok (rule, i1 ++ [mkWarn rname rtype (path ++ ".columns")
          ("Columns not in dataset hint: " ++ jsonListRepr missing)])

/-- `_validate_non_empty_rule`. -/
def vNonEmptyR (cfg : NCfg) (rule : Json) (rname rtype path : String) :
    Except String (Json × List NIssue) :=
  .ok (rule, requireList rule "columns" path rname rtype ++
    warnUnknown cfg rule "columns" rname rtype path)

/-- `_validate_range_rule`. -/
def vRangeR (cfg : NCfg) (rule : Json) (rname rtype path : String) :
    Except String (Json × List NIssue) :=
  let i1 := requireKeys rule ["column", "min", "max"] path rname rtype
  let i2 := warnUnknown cfg rule "column" rname rtype path
  let i3 :=
    if (jget rule "min").isSome && (jget rule "max").isSome then
      match pyFloat ((jget rule "min").getD .null), pyFloat ((jget rule "max").getD .null) with
      | some mn, some mx =>
        if DecNum.lt mx mn then [mkErr rname rtype (path ++ ".min/max") "min must be <= max"]
        else []
      | _, _ => [mkErr rname rtype (path ++ ".min/max") "min/max must be numeric"]
    else []
  .ok (rule, i1 ++ i2 ++ i3)

/-- `_validate_enum_rule` (also normalizes the `allowedValues` alias). -/
def vEnumR (cfg : NCfg) (rule : Json) (rname rtype path : String) :
    Except String (Json × List NIssue) :=
  let i1 := requireKeys rule ["column"] path rname rtype
  let i2 := warnUnknown cfg rule "column" rname rtype path
  let rule2 :=
    if (jget rule "allowed").isNone && (jget rule "allowedValues").isSome then
      jset rule "allowed" ((jget rule "allowedValues").getD .null)
    else rule
  let i3 :=
    match jget rule2 "allowed" with
    | some (.arr its) =>
      if its.isEmpty then
        [mkErr rname rtype (path ++ ".allowed") "Provide non-empty \x27allowed\x27 list"]
      else []
    | _ => [mkErr rname rtype (path ++ ".allowed") "Provide non-empty \x27allowed\x27 list"]
  .ok (rule2, i1 ++ i2 ++ i3)

/-- `_validate_length_rule` (fills the 0 and 1000000 defaults; a
non-convertible bound raises). -/
def vLengthR (cfg : NCfg) (rule : Json) (rname rtype path : String) :
    Except String (Json × List NIssue) :=
  let i1 := requireKeys rule ["column"] path rname rtype
  let i2 := warnUnknown cfg rule "column" rname rtype path
  match pyInt ((jget rule "min").getD (.num ⟨0, 0⟩)), pyInt ((jget rule "max").getD (.num ⟨1000000, 0⟩)) with
  | some mn, some mx =>
    let rule2 := jset (jset rule "min" (.num ⟨mn, 0⟩)) "max" (.num ⟨mx, 0⟩)
    let i3 :=
      if decide (mn < 0) || decide (mx < 0) || decide (mx < mn) then
        [mkErr rname rtype (path ++ ".min/max") "0 ≤ min ≤ max required"]
      else []
    .ok (rule2, i1 ++ i2 ++ i3)
  | _, _ => .error "TypeError: int() argument"

/-- `_validate_regex_rule`: `reErr` gives the compile error of a pattern,
if any. -/
def vRegexR (cfg : NCfg) (reErr : String → Option String) (rule : Json)
    (rname rtype path : String) : Except String (Json × List NIssue) :=
  let i1 := requireKeys rule ["column", "pattern"] path rname rtype
  let i2 := warnUnknown cfg rule "column" rname rtype path
  let i3 :=
    match reErr (pyStr ((jget rule "pattern").getD (.str ""))) with
    | some e => [mkErr rname rtype (path ++ ".pattern") ("Invalid regex: " ++ e)]
    | none => []
  .ok (rule, i1 ++ i2 ++ i3)

/-- `_validate_unique_rule`. -/
def vUniqueR (cfg : NCfg) (rule : Json) (rname rtype path : String) :
    Except String (Json × List NIssue) :=
  .ok (rule, requireList rule "columns" path rname rtype ++
    warnUnknown cfg rule "columns" rname rtype path)

/-- `_validate_decimal_rule` (fills precision/scale/exact_scale defaults;
non-convertible precision or scale raises). -/
def vDecimalR (cfg : NCfg) (rule : Json) (rname rtype path : String) :
    Except String (Json × List NIssue) :=
  let i1 := requireKeys rule ["column"] path rname rtype
  let i2 := warnUnknown cfg rule "column" rname rtype path
  match pyInt ((jget rule "precision").getD (.num ⟨18, 0⟩)), pyInt ((jget rule "scale").getD (.num ⟨2, 0⟩)) with
  | some prec, some scale =>
    let rule2 := jset (jset rule "precision" (.num ⟨prec, 0⟩)) "scale" (.num ⟨scale, 0⟩)
    let rule3 := jset rule2 "exact_scale" (.bool (pyBool ((jget rule "exact_scale").getD (.bool false))))
    let i3 :=
      if decide (prec ≤ 0) || decide (scale < 0) || decide (prec < scale) then
        [mkErr rname rtype (path ++ ".precision/scale") "Require precision>0 and 0≤scale≤precision"]
      else []
    let i4 := ["min", "max"].filterMap (fun b =>
      match jget rule3 b with
      | some v =>
        if isNumber v then none
        else some (mkErr rname rtype (path ++ "." ++ b)
          ("\x27" ++ b ++ "\x27 must be numeric if provided"))
      | none => none)
    .ok (rule3, i1 ++ i2 ++ i3 ++ i4)
  | _, _ => .error "TypeError: int() argument"

/-- The `validators` dispatch table as an if-chain over the type string. -/
def runValidatorR (cfg : NCfg) (reErr : String → Option String) (rtype : String)
    (rule : Json) (rname path : String) : Except String (Json × List NIssue) :=
  if rtype == "headers" then vHeadersR cfg rule rname rtype path
  else if rtype == "non_empty" then vNonEmptyR cfg rule rname rtype path
  else if rtype == "range" then vRangeR cfg rule rname rtype path
  else if rtype == "enum" then vEnumR cfg rule rname rtype path
  else if rtype == "length" then vLengthR cfg rule rname rtype path
  else if rtype == "regex" then vRegexR cfg reErr rule rname rtype path
  else if rtype == "unique" then vUniqueR cfg rule rname rtype path
  else if rtype == "decimal" then vDecimalR cfg rule rname rtype path
  else .error "KeyError: no validator"

/-- `str(rule.get("type", "")).strip()`. -/
def typeStrOf (rule : Json) : String :=
  pyStrip (pyStr ((jget rule "type").getD (.str "")))

/-- The rule name after normalization: the stripped given name, or
`rule_<index>` when empty or missing. -/
def normName (idx : Nat) (rule : Json) : String :=
  let s := pyStrip (pyStr ((jget rule "name").getD (.str "")))
  if s == "" then "rule_" ++ toString idx else s

/-- Mutable state of the `validate` loop: accumulated issues, the set of
seen names, and the headers-rule count. -/
structure NState where
  issues : List NIssue
  seen : List String
  headersCount : Nat

/-- Message of the last ERROR-level issue (for the `raise` mode). -/
def lastErrMsg (issues : List NIssue) : String :=
  match (issues.filter (fun i => i.level == "ERROR")).getLast? with
  | some i => i.message
  | none => ""

/-- The main loop of `RuleSchemaValidator.validate`: auto-name, check the
supported-type and duplicate-name conditions, dispatch the per-type
validator, and handle fail-fast; `inr` is an early fail-fast return. -/
def nLoop (cfg : NCfg) (reErr : String → Option String) :
    Nat → List Json → List Json → NState →
    Except String ((List Json × NState) ⊕ (Bool × List Json × List NIssue))
  | _, done, [], st => .ok (.inl (done, st))
  | idx, done, rule :: rest, st =>
    match rule with
    | .obj fs =>
      let rule0 : Json := .obj fs
      let path := "[" ++ toString idx ++ "]"
      let rtype := typeStrOf rule0
      let rname := normName idx rule0
      let rule1 := jset rule0 "name" (.str rname)
      if !SUPPORTED.contains rtype then
        let iss := mkErr rname rtype path (unsupportedMsg rtype)
        let st1 : NState := ⟨st.issues ++ [iss], st.seen, st.headersCount⟩
        if cfg.failFast then
          if cfg.failMode == "raise" then .error ("Rule validation failed: " ++ iss.message)
          else .ok (.inr (false, done ++ rule1 :: rest, st1.issues))
        else nLoop cfg reErr (idx + 1) (done ++ [rule1]) rest st1
      else
        let dup := st.seen.contains rname
        let st2 : NState :=
          ⟨st.issues ++ (if dup then [mkErr rname rtype path "Duplicate rule name"] else []),
           st.seen, st.headersCount⟩
        if dup && cfg.failFast then
          if cfg.failMode == "raise" then .error "Rule validation failed: Duplicate rule name"
          else .ok (.inr (false, done ++ rule1 :: rest, st2.issues))
        else
          let st3 : NState :=
            ⟨st2.issues, st2.seen ++ [rname],
             st2.headersCount + (if rtype == "headers" then 1 else 0)⟩
          match runValidatorR cfg reErr rtype rule1 rname path with
          | .error e => .error e
          | .ok (rule2, vIss) =>
            let st4 : NState := ⟨st3.issues ++ vIss, st3.seen, st3.headersCount⟩
            if cfg.failFast && st4.issues.any (fun i => i.level == "ERROR") then
              if cfg.failMode == "raise" then
                .error ("Rule validation failed: " ++ lastErrMsg st4.issues)
              else .ok (.inr (false, done ++ rule2 :: rest, st4.issues))
            else nLoop cfg reErr (idx + 1) (done ++ [rule2]) rest st4
    | _ => .error "AttributeError: rule is not a dict"

/-- `RuleSchemaValidator.validate`: run the loop, append the cross-rule
advisories, and report validity as absence of ERROR issues. -/
def nValidate (cfg : NCfg) (reErr : String → Option String) (rules : List Json) :
    Except String (Bool × List Json × List NIssue) :=
  match nLoop cfg reErr 0 [] rules ⟨[], [], 0⟩ with
  | .error e => .error e
  | .ok (.inr res) => .ok res
  | .ok (.inl (rules2, st)) =>
    let issues1 := st.issues ++
      (if st.headersCount == 0 && cfg.datasetColumns.isSome then
        [mkWarn "<schema>" "headers" "$"
          "No \x27headers\x27 rule present; column presence not enforced."]
       else [])
    let issues2 := issues1 ++
      (if decide (1 < st.headersCount) then
        [mkWarn "<schema>" "headers" "$"
          "Multiple \x27headers\x27 rules present; consider consolidating."]
       else [])
    .ok ((issues2.filter (fun i => i.level == "ERROR")).isEmpty, rules2, issues2)

/-- Is the rule at an index of a supported type? -/
def supportedAt (rules : List Json) (i : Nat) : Bool :=
  SUPPORTED.contains (typeStrOf (rules.getD i .null))

/-- Normalized name of the rule at an index. -/
def nameAt (rules : List Json) (i : Nat) : String :=
  normName i (rules.getD i .null)

/-- Does the supported rule at an index reuse the normalized name of an
earlier supported rule? -/
def dupAt (rules : List Json) (i : Nat) : Bool :=
  supportedAt rules i &&
    (List.range i).any (fun j => supportedAt rules j && (nameAt rules j == nameAt rules i))

/-- Indices of the duplicate-name ERRORs. -/
def dupIndices (rules : List Json) : List Nat :=
  (List.range rules.length).filter (dupAt rules)

/-- The duplicate-name ERROR issue generated at an index. -/
def dupIssueAt (rules : List Json) (i : Nat) : NIssue :=
  mkErr (nameAt rules i) (typeStrOf (rules.getD i .null))
    ("[" ++ toString i ++ "]") "Duplicate rule name"

/-- A regex-compile oracle under which every pattern compiles. -/
def reNone : String → Option String := fun _ => none

/-- Collect-mode normalizer configuration without a dataset hint. -/
def cfgN : NCfg := ⟨none, false, "return"⟩

/-- Two well-formed `non_empty` rules that share the name "check". -/
def rulesChk : List Json :=
  [.obj [("name", .str "check"), ("type", .str "non_empty"), ("columns", .arr [.str "a"])],
   .obj [("name", .str "check"), ("type", .str "non_empty"), ("columns", .arr [.str "a"])]]

/-- The issues `validate` produces on `rulesChk`. -/
def issuesChk : List NIssue := [NIssue.mk "check" "non_empty" "[1]" "ERROR" "Duplicate rule name"]

/-- An unsupported-typed rule named "check" followed by a supported rule
with the same name. -/
def rulesC9x : List Json :=
  [.obj [("type", .str "foo"), ("name", .str "check")],
   .obj [("type", .str "non_empty"), ("name", .str "check"), ("columns", .arr [.str "a"])]]

/-- The Python regex whitespace class `\s` (ASCII part, as it occurs in
rule documents). -/
def isReWs (c : Char) : Bool :=
  c == ' ' || c == '\t' || c == '\n' || c == '\r' || c == '\x0b' || c == '\x0c'

/-- `re.sub(r"(?m)//.*?$", "", s)`: everything from each `//` to the end
of its line is removed; the newline itself survives. Fuel is the input
length (at least one character is consumed per step). -/
def stripLineAux : Nat → List Char → List Char
  | _, [] => []
  | 0, cs => cs
  | fuel + 1, '/' :: '/' :: rest =>
    stripLineAux fuel (rest.dropWhile (fun d => !(d == '\n')))
  | fuel + 1, c :: cs => c :: stripLineAux fuel cs

/-- Scan past the next `*/`, returning the remainder, or `none` when the
comment is never closed. -/
def dropThroughClose : Nat → List Char → Option (List Char)
  | _, [] => none
  | 0, _ => none
  | _ + 1, '*' :: '/' :: rest => some rest
  | fuel + 1, _ :: cs => dropThroughClose fuel cs

/-- `re.sub(r"/\*.*?\*/", "", s, flags=re.S)`: each lazily matched
`/* ... */` block is removed; an unclosed `/*` matches nothing and the
tail is kept verbatim. -/
def stripBlockAux : Nat → List Char → List Char
  | _, [] => []
  | 0, cs => cs
  | fuel + 1, '/' :: '*' :: rest =>
    match dropThroughClose rest.length rest with
    | some rest2 => stripBlockAux fuel rest2
    | none => '/' :: '*' :: rest
  | fuel + 1, c :: cs => c :: stripBlockAux fuel cs

/-- `re.sub(r",\s*([}\]])", r"\1", s)`: a comma followed by optional
whitespace and a closing brace or bracket is replaced by the closer; the
scan resumes after the closer. -/
def stcAux : Nat → List Char → List Char
  | _, [] => []
  | 0, cs => cs
  | fuel + 1, ',' :: cs =>
    match cs.dropWhile isReWs with
    | '\x7d' :: rest2 => '\x7d' :: stcAux fuel rest2
    | ']' :: rest2 => ']' :: stcAux fuel rest2
    | _ => ',' :: stcAux fuel cs
  | fuel + 1, c :: cs => c :: stcAux fuel cs

/-- `_strip_json_comments_and_trailing_commas`: the three textual regex
substitutions in source order, applied to the raw document with no
awareness of JSON string literals. -/
def stripJson (s : String) : String :=
  let l1 := stripLineAux s.data.length s.data
  let l2 := stripBlockAux l1.length l1
  ⟨stcAux l2.length l2⟩

/-- JSON whitespace accepted between tokens by `json.loads`. -/
def jWs (c : Char) : Bool :=
  c == ' ' || c == '\t' || c == '\n' || c == '\r'

/-- Decoding of a JSON string escape (the `\uXXXX` form is outside this
fragment). -/
def jEsc : Char → Option Char
  | '"' => some '"'
  | '\\' => some '\\'
  | '/' => some '/'
  | 'b' => some '\x08'
  | 'f' => some '\x0c'
  | 'n' => some '\n'
  | 'r' => some '\r'
  | 't' => some '\t'
  | _ => none

/-- Parse the body of a JSON string after its opening quote. -/
def pStrAux : Nat → List Char → Option (String × List Char)
  | _, [] => none
  | 0, _ => none
  | _ + 1, '"' :: rest => some ("", rest)
  | fuel + 1, '\\' :: e :: rest =>
    match jEsc e with
    | none => none
    | some c =>
      match pStrAux fuel rest with
      | none => none
      | some (s, rest2) => some (⟨c :: s.data⟩, rest2)
  | fuel + 1, c :: rest =>
    match pStrAux fuel rest with
    | none => none
    | some (s, rest2) => some (⟨c :: s.data⟩, rest2)

/-- Parse a JSON number (integer or fixed-point fraction; exponents are
outside this fragment). -/
def pNum (cs : List Char) : Option (Json × List Char) :=
  let sgn : Int × List Char :=
    match cs with
    | '-' :: t => (-1, t)
    | _ => (1, cs)
  let ds := sgn.2.takeWhile Char.isDigit
  let cs2 := sgn.2.dropWhile Char.isDigit
  if ds.isEmpty then none
  else
    match cs2 with
    | '.' :: cs3 =>
      let fd := cs3.takeWhile Char.isDigit
      let cs4 := cs3.dropWhile Char.isDigit
      if fd.isEmpty then none
      else
        some (.num ⟨sgn.1 * ((digitsToNat ds) * 10 ^ fd.length + digitsToNat fd), fd.length⟩,
          cs4)
    | _ => some (.num ⟨sgn.1 * digitsToNat ds, 0⟩, cs2)

mutual

/-- Parse one JSON value (the `json.loads` grammar on the fragment used
by rule documents). -/
def pVal : Nat → List Char → Option (Json × List Char)
  | 0, _ => none
  | fuel + 1, cs0 =>
    match cs0.dropWhile jWs with
    | [] => none
    | 'n' :: 'u' :: 'l' :: 'l' :: rest => some (.null, rest)
    | 't' :: 'r' :: 'u' :: 'e' :: rest => some (.bool true, rest)
    | 'f' :: 'a' :: 'l' :: 's' :: 'e' :: rest => some (.bool false, rest)
    | '"' :: rest =>
      match pStrAux rest.length rest with
      | none => none
      | some (s, rest2) => some (.str s, rest2)
    | '[' :: rest =>
      match rest.dropWhile jWs with
      | ']' :: rest2 => some (.arr [], rest2)
      | _ => pArrLoop fuel [] rest
    | '\x7b' :: rest =>
      match rest.dropWhile jWs with
      | '\x7d' :: rest2 => some (.obj [], rest2)
      | _ => pObjLoop fuel (.obj []) rest
    | c :: rest => if c == '-' || c.isDigit then pNum (c :: rest) else none

/-- Parse the elements of a non-empty JSON array. -/
def pArrLoop : Nat → List Json → List Char → Option (Json × List Char)
  | 0, _, _ => none
  | fuel + 1, acc, cs =>
    match pVal fuel cs with
    | none => none
    | some (v, rest) =>
      match rest.dropWhile jWs with
      | ',' :: rest2 => pArrLoop fuel (acc ++ [v]) rest2
      | ']' :: rest2 => some (.arr (acc ++ [v]), rest2)
      | _ => none

/-- Parse the members of a non-empty JSON object; a repeated key
overwrites the earlier value in place, as Python dict assignment does. -/
def pObjLoop : Nat → Json → List Char → Option (Json × List Char)
  | 0, _, _ => none
  | fuel + 1, acc, cs =>
    match cs.dropWhile jWs with
    | '"' :: rest =>
      match pStrAux rest.length rest with
      | none => none
      | some (k, rest2) =>
        match rest2.dropWhile jWs with
        | ':' :: rest3 =>
          match pVal fuel rest3 with
          | none => none
          | some (v, rest4) =>
            match rest4.dropWhile jWs with
            | ',' :: rest5 => pObjLoop fuel (jset acc k v) rest5
            | '\x7d' :: rest5 => some (jset acc k v, rest5)
            | _ => none
        | _ => none
    | _ => none

end

/-- `json.loads` on a whole document: one value and trailing whitespace. -/
def pDoc (s : String) : Option Json :=
  match pVal (2 * s.data.length + 4) s.data with
  | none => none
  | some (v, rest) => if (rest.dropWhile jWs).isEmpty then some v else none

/-- `RuleSchemaValidator.load`: strict parse, then require a top-level
list. -/
def loadRules (s : String) : Except String (List Json) :=
  match pDoc s with
  | none => .error "json.decoder.JSONDecodeError"
  | some (.arr l) => .ok l
  | some _ => .error "Rules JSON must be a list."

/-- `RuleSchemaValidator.load_relaxed`: strip comments and trailing
commas textually, then strict parse. -/
def loadRelaxed (s : String) : Except String (List Json) :=
  loadRules (stripJson s)

/-- A strict-JSON rule document whose only string oddity is the
character sequence `,}` inside the allowed value. -/
def docC10 : String :=
  "[\x7b\"type\": \"enum\", \"column\": \"c\", \"allowed\": [\"a,\x7d\"]\x7d]"

end RuleSchema

-- ===== THEOREMS =====

namespace Flatten

theorem flattenStructsFuel_ok_no_structs (sep : String) (n : Nat) (df df2 : NDF)
    (h : flattenStructsFuel sep n df = .ok df2) : hasStructs df2.schema = false := by
  induction n generalizing df with
  | zero => simp [flattenStructsFuel] at h
  | succ d ih =>
    unfold flattenStructsFuel at h
    by_cases hs : hasStructs df.schema
    · rw [if_pos hs] at h
      exact ih _ h
    · rw [if_neg hs] at h
      cases h
      exact Bool.not_eq_true _ |>.mp hs

theorem flattenStructsFuel_flat_id (sep : String) (d : Nat) (df : NDF)
    (h : hasStructs df.schema = false) :
    flattenStructsFuel sep (d + 1) df = .ok df := by
  unfold flattenStructsFuel
  simp [h]

theorem explodeRowAt_length (idx : Nat) (row : List NVal) :
    (explodeRowAt idx row).length = arity (row.getD idx .null) := by
  unfold explodeRowAt arity
  cases h : row.getD idx .null with
  | arr es =>
    cases es with
    | nil => simp
    | cons e es => simp [Nat.max_eq_right (Nat.succ_le_succ (Nat.zero_le _))]
  | null => simp
  | atom s => simp
  | strct vs => simp

theorem explodeAt_length (idx : Nat) (df : NDF) :
    (explodeAt idx df).rows.length = (df.rows.map fun r => arity (r.getD idx .null)).sum := by
  unfold explodeAt
  simp only [List.length_flatMap]
  have hf : (List.length ∘ explodeRowAt idx) = fun r => arity (r.getD idx .null) :=
    funext fun r => explodeRowAt_length idx r
  rw [hf]

theorem explodeRowAt_getD_ne (i j : Nat) (hne : i ≠ j) (row row2 : List NVal)
    (h : row2 ∈ explodeRowAt i row) : row2.getD j .null = row.getD j .null := by
  unfold explodeRowAt at h
  have hset : ∀ x : NVal, (row.set i x).getD j .null = row.getD j .null := by
    intro x
    simp [List.getD, List.get?_eq_getElem?, List.getElem?_set_ne hne]
  cases hv : row.getD i .null with
  | arr es =>
    rw [hv] at h
    by_cases he : es.isEmpty
    · simp [he] at h
      rw [h]; exact hset _
    · simp [he, List.mem_map] at h
      obtain ⟨e, _, hrow⟩ := h
      rw [← hrow]; exact hset _
  | null => rw [hv] at h; simp at h; rw [h]; exact hset _
  | atom s => rw [hv] at h; simp at h; rw [h]; exact hset _
  | strct vs => rw [hv] at h; simp at h; rw [h]; exact hset _

end Flatten

namespace Engine

theorem any_dedup {α : Type} [DecidableEq α] (l : List α) (p : α → Bool) :
    l.dedup.any p = l.any p := by
  rw [Bool.eq_iff_iff]
  simp only [List.any_eq_true]
  constructor
  · rintro ⟨x, hx, hp⟩
    exact ⟨x, List.mem_dedup.mp hx, hp⟩
  · rintro ⟨x, hx, hp⟩
    exact ⟨x, List.mem_dedup.mpr hx, hp⟩

theorem idsMatchT_map (idCols : List String) (r e : Row) :
    idsMatchT idCols r (idCols.map (rget e)) = idsMatch idCols r e := by
  unfold idsMatchT idsMatch sqlEqList
  rw [List.zip_map']
  induction idCols with
  | nil => rfl
  | cons c cs ih =>
    simp only [List.map_cons, List.all_cons]
    rw [ih]

theorem headersScan_collect (rlike : String → String → Bool) (cfg : VCfg) (df : DF)
    (limit : Nat) (rules : List ERule) (hff : cfg.failFast = false) :
    headersScan rlike cfg df limit rules = .ok none := by
  induction rules with
  | nil => rfl
  | cons r rs ih =>
    unfold headersScan
    by_cases hh : r.isHeaders
    · simp only [hh, if_true]
      cases hfind : (runRule rlike cfg.idCols df r).find? (fun v => !v.isEmpty) with
      | none => exact ih
      | some v =>
        rw [hff]
        simpa using ih
    · simp only [hh, if_false]
      exact ih

theorem dataScan_collect (rlike : String → String → Bool) (cfg : VCfg) (df : DF)
    (limit : Nat) (rules : List ERule) (hff : cfg.failFast = false) :
    dataScan rlike cfg df limit rules =
      .ok (.inr (collectViolations rlike cfg.idCols df limit rules)) := by
  induction rules with
  | nil => rfl
  | cons r rs ih =>
    unfold dataScan
    by_cases hh : r.isHeaders
    · rw [ih]
      unfold collectViolations
      simp [hh]
    · by_cases hp : (runRule rlike cfg.idCols df r).isEmpty
      · have hnil : runRule rlike cfg.idCols df r = [] := List.isEmpty_iff.mp hp
        rw [ih]
        unfold collectViolations
        simp [hh, hp, hnil]
      · simp only [hh, Bool.false_eq_true, if_false, hp, hff]
        rw [ih]
        unfold collectViolations
        simp [hh, Except.map, List.flatMap_cons]

theorem validateE_collect (rlike : String → String → Bool) (cfg : VCfg) (df : DF)
    (limit : Nat) (rules : List ERule) (hff : cfg.failFast = false) :
    validateE rlike cfg df rules limit =
      .ok (finalize cfg df (collectViolations rlike cfg.idCols df limit rules)) := by
  unfold validateE
  rw [headersScan_collect rlike cfg df limit rules hff]
  rw [dataScan_collect rlike cfg df limit rules hff]

theorem sqlEq_true_iff_of_left_ne (a b : Val) (ha : a ≠ .vnull) :
    ((sqlEq a b == some true) = true) ↔ a = b := by
  unfold sqlEq
  cases a with
  | vnull => exact absurd rfl ha
  | vstr s => cases b <;> simp
  | vnum q => cases b <;> simp
  | vbool x => cases b <;> simp

theorem idsMatch_iff_map_eq (idCols : List String) (r e : Row)
    (hnn : ∀ c ∈ idCols, rget r c ≠ .vnull) :
    idsMatch idCols r e = true ↔ idCols.map (rget r) = idCols.map (rget e) := by
  unfold idsMatch
  rw [List.all_eq_true, List.map_inj_left]
  exact ⟨fun h c hc => (sqlEq_true_iff_of_left_ne _ _ (hnn c hc)).mp (h c hc),
    fun h c hc => (sqlEq_true_iff_of_left_ne _ _ (hnn c hc)).mpr (h c hc)⟩

theorem anyOverMap {A B : Type} (l : List A) (f : A → B) (p : B → Bool) :
    (l.map f).any p = l.any (fun a => p (f a)) := by
  induction l with
  | nil => rfl
  | cons a t ih =>
    simp only [List.map_cons, List.any_cons]
    rw [ih]

theorem finalize_fst (cfg : VCfg) (df : DF) (vs : List (List Row)) :
    (finalize cfg df vs).1 = vs.flatten.isEmpty := rfl

theorem finalize_errs (cfg : VCfg) (df : DF) (vs : List (List Row)) :
    (finalize cfg df vs).2.2 = vs.flatten := rfl

theorem finalize_valid_nil (cfg : VCfg) (df : DF) (vs : List (List Row))
    (h : cfg.idCols = []) : (finalize cfg df vs).2.1 = df := by
  unfold finalize
  simp [h]

theorem finalize_valid_rows (cfg : VCfg) (df : DF) (vs : List (List Row))
    (h : cfg.idCols ≠ []) :
    (finalize cfg df vs).2.1 =
      DF.mk df.cols (df.rows.filter (fun r => !(vs.flatten.any (idsMatch cfg.idCols r)))) := by
  unfold finalize
  have hne : cfg.idCols.isEmpty = false := by
    cases hc : cfg.idCols with
    | nil => exact absurd hc h
    | cons a l => rfl
  simp only [hne, Bool.false_eq_true, if_false]
  congr 1
  apply List.filter_congr
  intro r _
  congr 1
  rw [any_dedup, anyOverMap]
  have hfun : (fun e => idsMatchT cfg.idCols r (List.map (rget e) cfg.idCols)) =
      fun e => idsMatch cfg.idCols r e :=
    funext fun e => idsMatchT_map cfg.idCols r e
  rw [hfun]

/-- C1: in collect mode the valid relation is the original relation
anti-joined (null-rejecting SQL equality on the id columns) against the
distinct id tuples of the diagnostics relation; with empty `id_cols` it is
the full original relation; and for a row whose id values are all
non-null, exclusion is equivalent to plain equality of its id tuple with
some diagnostic row's id tuple. -/
theorem valid_relation_anti_join (rlike : String → String → Bool) (cfg : VCfg) (df : DF)
    (rules : List ERule) (limit : Nat) (isv : Bool) (vdf : DF) (errs : List Row)
    (_hnd : cfg.idCols.Nodup)
    (_hrsv : ∀ c ∈ cfg.idCols, c ∉ ["rule", "column", "value", "message"])
    (hff : cfg.failFast = false)
    (hok : validateE rlike cfg df rules limit = .ok (isv, vdf, errs)) :
    (cfg.idCols = [] → vdf = df) ∧
    (cfg.idCols ≠ [] →
      vdf.cols = df.cols ∧
      vdf.rows = df.rows.filter (fun r => !(errs.any (idsMatch cfg.idCols r))) ∧
      (∀ r ∈ df.rows, (∀ c ∈ cfg.idCols, rget r c ≠ .vnull) →
        (r ∉ vdf.rows ↔ ∃ e ∈ errs, cfg.idCols.map (rget r) = cfg.idCols.map (rget e)))) := by
  rw [validateE_collect rlike cfg df limit rules hff] at hok
  have hok2 := Except.ok.inj hok
  have hvdf : (finalize cfg df (collectViolations rlike cfg.idCols df limit rules)).2.1 = vdf := by
    rw [hok2]
  have herrs : (finalize cfg df (collectViolations rlike cfg.idCols df limit rules)).2.2 = errs := by
    rw [hok2]
  rw [finalize_errs] at herrs
  constructor
  · intro hid
    rw [← hvdf, finalize_valid_nil cfg df _ hid]
  · intro hid
    have hv := finalize_valid_rows cfg df (collectViolations rlike cfg.idCols df limit rules) hid
    rw [hvdf, herrs] at hv
    have hcols : vdf.cols = df.cols := by rw [hv]
    have hrows : vdf.rows = df.rows.filter (fun r => !(errs.any (idsMatch cfg.idCols r))) := by
      rw [hv]
    refine ⟨hcols, hrows, ?_⟩
    intro r hr hnn
    rw [hrows]
    constructor
    · intro hnot
      by_cases hany : errs.any (idsMatch cfg.idCols r) = true
      · rw [List.any_eq_true] at hany
        obtain ⟨e, he, hm⟩ := hany
        exact ⟨e, he, (idsMatch_iff_map_eq cfg.idCols r e hnn).mp hm⟩
      · exact absurd (List.mem_filter.mpr ⟨hr, by simp [hany]⟩) hnot
    · rintro ⟨e, he, heq⟩ hmem
      have hpred := (List.mem_filter.mp hmem).2
      have hany : errs.any (idsMatch cfg.idCols r) = true :=
        List.any_eq_true.mpr ⟨e, he, (idsMatch_iff_map_eq cfg.idCols r e hnn).mpr heq⟩
      rw [hany] at hpred
      simp at hpred

end Engine

namespace Engine

theorem take_ne_nil {α : Type} (v : List α) (n : Nat) (hv : v ≠ []) (hn : 1 ≤ n) :
    v.take n ≠ [] := by
  intro h
  rcases List.take_eq_nil_iff.mp h with h1 | h1
  · omega
  · exact hv h1

theorem headersScan_ok_some (rlike : String → String → Bool) (cfg : VCfg) (df : DF)
    (limit : Nat) (rules : List ERule) (res : Bool × DF × List Row)
    (h : headersScan rlike cfg df limit rules = .ok (some res)) :
    ∃ v, v ≠ [] ∧ res = (false, df, v.take limit) := by
  induction rules with
  | nil => simp [headersScan] at h
  | cons r rs ih =>
    unfold headersScan at h
    by_cases hh : r.isHeaders
    · rw [hh] at h
      simp only [if_pos] at h
      cases hfind : (runRule rlike cfg.idCols df r).find? (fun v => !v.isEmpty) with
      | none =>
        rw [hfind] at h
        exact ih h
      | some v =>
        rw [hfind] at h
        by_cases hf : cfg.failFast
        · rw [hf] at h
          simp only [if_pos] at h
          by_cases hm : (cfg.failMode == "raise") = true
          · rw [hm] at h
            simp at h
          · simp only [hm, Bool.false_eq_true, if_false] at h
            have hres := Option.some.inj (Except.ok.inj h)
            refine ⟨v, ?_, hres.symm⟩
            have hp := List.find?_some hfind
            simpa using hp
        · simp only [hf, Bool.false_eq_true, if_false] at h
          exact ih h
    · simp only [hh, Bool.false_eq_true, if_false] at h
      exact ih h

theorem dataScan_ok_inl (rlike : String → String → Bool) (cfg : VCfg) (df : DF)
    (limit : Nat) (rules : List ERule) (res : Bool × DF × List Row)
    (h : dataScan rlike cfg df limit rules = .ok (.inl res)) :
    ∃ v, v ≠ [] ∧ res = (false, df, v.take limit) := by
  induction rules with
  | nil => simp [dataScan] at h
  | cons r rs ih =>
    unfold dataScan at h
    by_cases hh : r.isHeaders
    · rw [hh] at h
      simp only [if_pos] at h
      exact ih h
    · simp only [hh, Bool.false_eq_true, if_false] at h
      by_cases hp : (runRule rlike cfg.idCols df r).isEmpty
      · rw [hp] at h
        simp only [if_pos] at h
        exact ih h
      · simp only [hp, Bool.false_eq_true, if_false] at h
        cases hsc : (if cfg.failFast then
            (runRule rlike cfg.idCols df r).find? (fun v => !v.isEmpty) else none) with
        | some v =>
          rw [hsc] at h
          by_cases hm : (cfg.failMode == "raise") = true
          · rw [hm] at h
            simp at h
          · simp only [hm, Bool.false_eq_true, if_false] at h
            have hres := Sum.inl.inj (Except.ok.inj h)
            refine ⟨v, ?_, hres.symm⟩
            have hfind : (runRule rlike cfg.idCols df r).find? (fun v => !v.isEmpty) = some v := by
              by_cases hf : cfg.failFast
              · rw [hf] at hsc
                simpa using hsc
              · simp [hf] at hsc
            have hpv := List.find?_some hfind
            simpa using hpv
        | none =>
          rw [hsc] at h
          cases hrec : dataScan rlike cfg df limit rs with
          | error e => rw [hrec] at h; simp [Except.map] at h
          | ok inner =>
            rw [hrec] at h
            cases inner with
            | inl e =>
              simp only [Except.map] at h
              have := Sum.inl.inj (Except.ok.inj h)
              exact ih (by rw [hrec, this])
            | inr vs =>
              simp [Except.map] at h

/-- C2: whenever `validate` returns (collect mode, or fail-fast with
return mode, with a positive error limit), the returned `is_valid` flag is
true exactly when the returned diagnostics relation has no rows. -/
theorem is_valid_iff_diagnostics_empty (rlike : String → String → Bool) (cfg : VCfg)
    (df : DF) (rules : List ERule) (limit : Nat) (isv : Bool) (vdf : DF) (errs : List Row)
    (hlim : 1 ≤ limit)
    (hok : validateE rlike cfg df rules limit = .ok (isv, vdf, errs)) :
    isv = true ↔ errs = [] := by
  unfold validateE at hok
  cases hh : headersScan rlike cfg df limit rules with
  | error e => rw [hh] at hok; simp at hok
  | ok o =>
    rw [hh] at hok
    cases o with
    | some early =>
      have hok2 : Except.ok early = Except.ok (isv, vdf, errs) := hok
      obtain ⟨v, hv, hearly⟩ := headersScan_ok_some rlike cfg df limit rules early hh
      have heq := Except.ok.inj hok2
      rw [hearly] at heq
      have h1 := congrArg Prod.fst heq
      have h3 := congrArg (fun t : Bool × DF × List Row => t.2.2) heq
      simp only at h1 h3
      constructor
      · intro hiv; rw [← h1] at hiv; exact absurd hiv (by simp)
      · intro he; rw [← h3] at he; exact absurd he (take_ne_nil v limit hv hlim)
    | none =>
      simp only at hok
      cases hd : dataScan rlike cfg df limit rules with
      | error e => rw [hd] at hok; simp at hok
      | ok inner =>
        rw [hd] at hok
        cases inner with
        | inl early =>
          have hok2 : Except.ok early = Except.ok (isv, vdf, errs) := hok
          obtain ⟨v, hv, hearly⟩ := dataScan_ok_inl rlike cfg df limit rules early hd
          have := Except.ok.inj hok2
          rw [hearly] at this
          have h1 := congrArg Prod.fst this
          have h3 := congrArg (fun t : Bool × DF × List Row => t.2.2) this
          simp only at h1 h3
          constructor
          · intro hiv; rw [← h1] at hiv; exact absurd hiv (by simp)
          · intro he; rw [← h3] at he; exact absurd he (take_ne_nil v limit hv hlim)
        | inr vs =>
          have hok2 : Except.ok (finalize cfg df vs) = Except.ok (isv, vdf, errs) := hok
          have := Except.ok.inj hok2
          have h1 := congrArg Prod.fst this
          have h3 := congrArg (fun t : Bool × DF × List Row => t.2.2) this
          simp only at h1 h3
          rw [finalize_fst] at h1
          rw [finalize_errs] at h3
          rw [← h1, ← h3]
          exact List.isEmpty_iff

end Engine

namespace Engine

/-- C1 witness at a concrete relation and rule list. -/
theorem valid_relation_anti_join_witness :
    vdfC1W.rows = dfC1W.rows.filter (fun r => !(errsC1W.any (idsMatch ["id"] r))) := by
  have h := valid_relation_anti_join rlikeNone cfgCollect dfC1W rulesC1W 1000 false vdfC1W
    errsC1W (by decide) (by decide) rfl (by rfl)
  exact (h.2 (by decide)).2.1

/-- C2 witness: a fail-fast return run with a headers violation. -/
theorem is_valid_iff_diagnostics_empty_witness :
    (1 ≤ 1000) ∧ ((false = true) ↔ errsHdrW = []) :=
  ⟨by decide, is_valid_iff_diagnostics_empty rlikeNone cfgFF dfHdr [hdrRuleW] 1000 false dfHdr
    errsHdrW (by decide) (by rfl)⟩

/-- C3 counterexample: a headers rule over a missing column in collect
mode yields an empty diagnostics relation and `is_valid = true` — the
headers diagnostics are not present in the returned diagnostics. -/
theorem headers_dropped_in_collect_counterexample :
    validateE rlikeNone cfgCollectA dfHdr [hdrRuleW] 1000 = .ok (true, dfHdr, []) := by
  rfl

theorem collectViolations_filter_headers (rlike : String → String → Bool)
    (idCols : List String) (df : DF) (limit : Nat) (rules : List ERule) :
    collectViolations rlike idCols df limit (rules.filter (fun r => !r.isHeaders)) =
      collectViolations rlike idCols df limit rules := by
  induction rules with
  | nil => rfl
  | cons r rs ih =>
    unfold collectViolations at ih ⊢
    by_cases hh : r.isHeaders
    · simp [hh, ih]
    · simp only [List.filter_cons, hh, Bool.not_false, if_pos, List.flatMap_cons,
        Bool.false_eq_true, if_false]
      rw [ih]

/-- C3 amended: each required column absent from the schema yields exactly
one row in the headers rule's violation partial — null id columns, the
rule's name (default "headers"), the missing name as column, and the
message "[headers] missing column <name>" — but in collect mode these
partials are discarded: the returned triple is the same as if the headers
rules were absent, so the headers diagnostics never reach the returned
diagnostics relation. -/
theorem headers_partials_collect_discard (rlike : String → String → Bool) :
    (∀ (idCols : List String) (df : DF) (nm : Option String) (cols : List String),
      (runRule rlike idCols df (.headers nm cols)).flatten =
        (cols.filter (fun c => !df.cols.contains c)).map (mkHdrRow idCols nm)) ∧
    (∀ (cfg : VCfg) (df : DF) (rules : List ERule) (limit : Nat), cfg.failFast = false →
      validateE rlike cfg df rules limit =
        validateE rlike cfg df (rules.filter (fun r => !r.isHeaders)) limit) := by
  constructor
  · intro idCols df nm cols
    rw [show runRule rlike idCols df (.headers nm cols) = runHeaders idCols df nm cols from rfl]
    unfold runHeaders
    by_cases hm : (cols.filter (fun c => !df.cols.contains c)).isEmpty = true
    · rw [if_pos hm, List.isEmpty_iff.mp hm]
      simp
    · rw [if_neg hm]
      simp
  · intro cfg df rules limit hff
    rw [validateE_collect rlike cfg df limit rules hff,
      validateE_collect rlike cfg df limit (rules.filter (fun r => !r.isHeaders)) hff,
      collectViolations_filter_headers]

/-- C3 witness: the discard equation at a concrete input. -/
theorem headers_partials_collect_discard_witness :
    validateE rlikeNone cfgCollectA dfHdr [hdrRuleW, .nonEmpty (some "ne") ["a"]] 5 =
      validateE rlikeNone cfgCollectA dfHdr
        ([hdrRuleW, .nonEmpty (some "ne") ["a"]].filter (fun r => !r.isHeaders)) 5 :=
  (headers_partials_collect_discard rlikeNone).2 cfgCollectA dfHdr
    [hdrRuleW, .nonEmpty (some "ne") ["a"]] 5 rfl

end Engine

namespace Engine

theorem headersScan_exit (rlike : String → String → Bool) (cfg : VCfg) (df : DF)
    (limit : Nat) (pre : List ERule) (h : ERule) (post : List ERule) (v : List Row)
    (hh : h.isHeaders = true)
    (hpre : ∀ r2 ∈ pre, r2.isHeaders = true →
      (runRule rlike cfg.idCols df r2).find? (fun p => !p.isEmpty) = none)
    (hfind : (runRule rlike cfg.idCols df h).find? (fun p => !p.isEmpty) = some v)
    (hff : cfg.failFast = true) :
    headersScan rlike cfg df limit (pre ++ h :: post) =
      (if cfg.failMode == "raise" then
        .error (.valueError "[headers] validation failed" (v.take 10))
      else .ok (some (false, df, v.take limit))) := by
  induction pre with
  | nil =>
    simp only [List.nil_append]
    unfold headersScan
    rw [hh, hfind, hff]
    simp
  | cons p pre2 ih =>
    simp only [List.cons_append]
    unfold headersScan
    by_cases hph : p.isHeaders
    · rw [hph]
      rw [hpre p (by simp) hph]
      simp only [if_pos]
      exact ih (fun r2 hr2 ht => hpre r2 (by simp [hr2]) ht)
    · simp only [hph, Bool.false_eq_true, if_false]
      exact ih (fun r2 hr2 ht => hpre r2 (by simp [hr2]) ht)

theorem headersScan_clean (rlike : String → String → Bool) (cfg : VCfg) (df : DF)
    (limit : Nat) (rules : List ERule)
    (hcl : ∀ r2 ∈ rules, r2.isHeaders = true →
      (runRule rlike cfg.idCols df r2).find? (fun p => !p.isEmpty) = none) :
    headersScan rlike cfg df limit rules = .ok none := by
  induction rules with
  | nil => rfl
  | cons r rs ih =>
    unfold headersScan
    by_cases hh : r.isHeaders
    · rw [hh, hcl r (by simp) hh]
      simp only [if_pos]
      exact ih (fun r2 hr2 ht => hcl r2 (by simp [hr2]) ht)
    · simp only [hh, Bool.false_eq_true, if_false]
      exact ih (fun r2 hr2 ht => hcl r2 (by simp [hr2]) ht)

theorem dataScan_exit (rlike : String → String → Bool) (cfg : VCfg) (df : DF)
    (limit : Nat) (pre : List ERule) (r : ERule) (post : List ERule) (v : List Row)
    (hr : r.isHeaders = false)
    (hpre : ∀ r2 ∈ pre, r2.isHeaders = false →
      (runRule rlike cfg.idCols df r2).find? (fun p => !p.isEmpty) = none)
    (hfind : (runRule rlike cfg.idCols df r).find? (fun p => !p.isEmpty) = some v)
    (hff : cfg.failFast = true) :
    dataScan rlike cfg df limit (pre ++ r :: post) =
      (if cfg.failMode == "raise" then
        .error (.valueError ("[" ++ r.typeStr ++ ":" ++ (r.name?).getD "" ++ "] failed") (v.take 10))
      else .ok (.inl (false, df, v.take limit))) := by
  have hpne : ¬(runRule rlike cfg.idCols df r).isEmpty = true := by
    intro he
    rw [List.isEmpty_iff.mp he] at hfind
    simp at hfind
  induction pre with
  | nil =>
    simp only [List.nil_append]
    unfold dataScan
    rw [hr]
    simp only [Bool.false_eq_true, if_false]
    simp only [hpne, if_false]
    rw [hff]
    simp only [if_pos, hfind]
    simp
  | cons p pre2 ih =>
    simp only [List.cons_append]
    unfold dataScan
    by_cases hph : p.isHeaders
    · rw [hph]
      simp only [if_true]
      have hrec := ih (fun r2 hr2 ht => hpre r2 (by simp [hr2]) ht)
      simpa using hrec
    · simp only [hph, Bool.false_eq_true, if_false]
      have hrec := ih (fun r2 hr2 ht => hpre r2 (by simp [hr2]) ht)
      by_cases hp2 : (runRule rlike cfg.idCols df p).isEmpty
      · rw [hp2]
        simp only [if_pos]
        exact hrec
      · simp only [hp2, Bool.false_eq_true, if_false]
        have hpfind : (runRule rlike cfg.idCols df p).find? (fun q => !q.isEmpty) = none :=
          hpre p (by simp) (Bool.not_eq_true _ |>.mp hph)
        rw [hff]
        simp only [if_pos, hpfind]
        rw [hrec]
        by_cases hm : (cfg.failMode == "raise") = true
        · rw [hm]
          simp [Except.map]
        · simp only [hm, Bool.false_eq_true, if_false]
          simp [Except.map]

/-- C4: with fail-fast set, the engine stops at the first rule — headers
rules checked first — whose violation partial is non-empty: `raise` mode
raises a `ValueError` carrying a sample of at most 10 violation rows, and
`return` mode immediately returns `(false, original relation, violations
capped at the error limit)`, with all later rules never influencing the
result. -/
theorem fail_fast_short_circuit (rlike : String → String → Bool) (cfg : VCfg) (df : DF)
    (limit : Nat) (hff : cfg.failFast = true) :
    (∀ (pre : List ERule) (h : ERule) (post : List ERule) (v : List Row),
      h.isHeaders = true →
      (∀ r2 ∈ pre, r2.isHeaders = true →
        (runRule rlike cfg.idCols df r2).find? (fun p => !p.isEmpty) = none) →
      (runRule rlike cfg.idCols df h).find? (fun p => !p.isEmpty) = some v →
      (cfg.failMode = "raise" →
        validateE rlike cfg df (pre ++ h :: post) limit =
          .error (.valueError "[headers] validation failed" (v.take 10))) ∧
      (cfg.failMode ≠ "raise" →
        validateE rlike cfg df (pre ++ h :: post) limit = .ok (false, df, v.take limit))) ∧
    (∀ (pre : List ERule) (r : ERule) (post : List ERule) (v : List Row),
      (∀ r2 ∈ pre ++ r :: post, r2.isHeaders = true →
        (runRule rlike cfg.idCols df r2).find? (fun p => !p.isEmpty) = none) →
      r.isHeaders = false →
      (∀ r2 ∈ pre, r2.isHeaders = false →
        (runRule rlike cfg.idCols df r2).find? (fun p => !p.isEmpty) = none) →
      (runRule rlike cfg.idCols df r).find? (fun p => !p.isEmpty) = some v →
      (cfg.failMode = "raise" →
        validateE rlike cfg df (pre ++ r :: post) limit =
          .error (.valueError ("[" ++ r.typeStr ++ ":" ++ (r.name?).getD "" ++ "] failed") (v.take 10))) ∧
      (cfg.failMode ≠ "raise" →
        validateE rlike cfg df (pre ++ r :: post) limit = .ok (false, df, v.take limit))) := by
  constructor
  · intro pre h post v hh hpre hfind
    have hsc := headersScan_exit rlike cfg df limit pre h post v hh hpre hfind hff
    constructor
    · intro hm
      unfold validateE
      rw [hsc, hm]
      simp
    · intro hm
      have hm2 : (cfg.failMode == "raise") = false := by
        cases hb : cfg.failMode == "raise"
        · rfl
        · exact absurd (eq_of_beq hb) hm
      unfold validateE
      rw [hsc, hm2]
      simp
  · intro pre r post v hcl hr hpre hfind
    have hhs := headersScan_clean rlike cfg df limit (pre ++ r :: post) hcl
    have hds := dataScan_exit rlike cfg df limit pre r post v hr hpre hfind hff
    constructor
    · intro hm
      unfold validateE
      rw [hhs]
      rw [hds, hm]
      simp
    · intro hm
      have hm2 : (cfg.failMode == "raise") = false := by
        cases hb : cfg.failMode == "raise"
        · rfl
        · exact absurd (eq_of_beq hb) hm
      unfold validateE
      rw [hhs]
      rw [hds, hm2]
      simp

/-- C4 witness: a headers rule over a missing column followed by a range
rule, fail-fast return mode — only the headers diagnostic is produced. -/
theorem fail_fast_short_circuit_witness :
    validateE rlikeNone cfgFF dfHdr [hdrRuleW, rangeRuleW] 1000 = .ok (false, dfHdr, errsHdrW) := by
  have h := ((fail_fast_short_circuit rlikeNone cfgFF dfHdr 1000 rfl).1
    [] hdrRuleW [rangeRuleW] errsHdrW (by decide) (by simp) (by decide)).2 (by decide)
  exact h.trans (by decide)

end Engine

namespace Engine

/-- C7 counterexample: an enum rule with allowed list `["A"]` on a row
whose value is null — null is not listed in allowed, yet the violation
partial is empty: the null-valued row is not emitted as a diagnostic. -/
theorem enum_null_passes_counterexample :
    rget [("id", Val.vstr "1"), ("c", Val.vnull)] "c" = Val.vnull ∧
    Val.vnull ∉ [Val.vstr "A"] ∧
    runRule rlikeNone ["id"] dfC7x (.enum (some "e") "c" [.vstr "A"]) = [[]] := by
  decide

theorem enum_fail_iff (v : Val) (allowed : List Val) :
    (tnot (sqlIsin v allowed) == some true) =
      decide (v ≠ .vnull ∧ Val.vnull ∉ allowed ∧ v ∉ allowed) := by
  cases v with
  | vnull => simp [sqlIsin, tnot]
  | vstr s =>
    rw [show sqlIsin (.vstr s) allowed =
      (if allowed.any (fun a => a != Val.vnull && a == .vstr s) then some true
       else if allowed.contains Val.vnull then none else some false) from rfl]
    by_cases hany : allowed.any (fun a => a != Val.vnull && a == Val.vstr s) = true
    · rw [if_pos hany]
      rw [List.any_eq_true] at hany
      obtain ⟨a, ha, hp⟩ := hany
      have : a = Val.vstr s := by
        have := (Bool.and_eq_true _ _).mp hp
        exact eq_of_beq this.2
      subst this
      simp [tnot, ha]
    · rw [if_neg hany]
      by_cases hnull : allowed.contains Val.vnull = true
      · rw [if_pos hnull]
        have : Val.vnull ∈ allowed := by
          rw [List.contains_iff_exists_mem_beq] at hnull
          obtain ⟨a, ha, hb⟩ := hnull
          rw [← eq_of_beq hb] at ha
          exact ha
        simp [tnot, this]
      · rw [if_neg hnull]
        have h1 : Val.vnull ∉ allowed := by
          intro hm
          exact hnull (List.contains_iff_exists_mem_beq.mpr ⟨_, hm, by rfl⟩)
        have h2 : Val.vstr s ∉ allowed := by
          intro hm
          rw [List.any_eq_true] at hany
          exact hany ⟨_, hm, by simp⟩
        simp [tnot, h1, h2]
  | vnum q =>
    rw [show sqlIsin (.vnum q) allowed =
      (if allowed.any (fun a => a != Val.vnull && a == .vnum q) then some true
       else if allowed.contains Val.vnull then none else some false) from rfl]
    by_cases hany : allowed.any (fun a => a != Val.vnull && a == Val.vnum q) = true
    · rw [if_pos hany]
      rw [List.any_eq_true] at hany
      obtain ⟨a, ha, hp⟩ := hany
      have : a = Val.vnum q := eq_of_beq ((Bool.and_eq_true _ _).mp hp).2
      subst this
      simp [tnot, ha]
    · rw [if_neg hany]
      by_cases hnull : allowed.contains Val.vnull = true
      · rw [if_pos hnull]
        have : Val.vnull ∈ allowed := by
          rw [List.contains_iff_exists_mem_beq] at hnull
          obtain ⟨a, ha, hb⟩ := hnull
          rw [← eq_of_beq hb] at ha
          exact ha
        simp [tnot, this]
      · rw [if_neg hnull]
        have h1 : Val.vnull ∉ allowed := by
          intro hm
          exact hnull (List.contains_iff_exists_mem_beq.mpr ⟨_, hm, by rfl⟩)
        have h2 : Val.vnum q ∉ allowed := by
          intro hm
          rw [List.any_eq_true] at hany
          exact hany ⟨_, hm, by simp⟩
        simp [tnot, h1, h2]
  | vbool b =>
    rw [show sqlIsin (.vbool b) allowed =
      (if allowed.any (fun a => a != Val.vnull && a == .vbool b) then some true
       else if allowed.contains Val.vnull then none else some false) from rfl]
    by_cases hany : allowed.any (fun a => a != Val.vnull && a == Val.vbool b) = true
    · rw [if_pos hany]
      rw [List.any_eq_true] at hany
      obtain ⟨a, ha, hp⟩ := hany
      have : a = Val.vbool b := eq_of_beq ((Bool.and_eq_true _ _).mp hp).2
      subst this
      simp [tnot, ha]
    · rw [if_neg hany]
      by_cases hnull : allowed.contains Val.vnull = true
      · rw [if_pos hnull]
        have : Val.vnull ∈ allowed := by
          rw [List.contains_iff_exists_mem_beq] at hnull
          obtain ⟨a, ha, hb⟩ := hnull
          rw [← eq_of_beq hb] at ha
          exact ha
        simp [tnot, this]
      · rw [if_neg hnull]
        have h1 : Val.vnull ∉ allowed := by
          intro hm
          exact hnull (List.contains_iff_exists_mem_beq.mpr ⟨_, hm, by rfl⟩)
        have h2 : Val.vbool b ∉ allowed := by
          intro hm
          rw [List.any_eq_true] at hany
          exact hany ⟨_, hm, by simp⟩
        simp [tnot, h1, h2]

/-- C7 amended: a row is emitted as an enum diagnostic iff its value is
non-null, not a member of the allowed list, and null is not itself listed
in allowed; in particular a null-valued row is never emitted, whether or
not null is listed. -/
theorem enum_violation_semantics (rlike : String → String → Bool) (idCols : List String)
    (df : DF) (nm : Option String) (c : String) (allowed : List Val) :
    runRule rlike idCols df (.enum nm c allowed) =
      [(df.rows.filter (fun r =>
        decide (rget r c ≠ .vnull ∧ Val.vnull ∉ allowed ∧ rget r c ∉ allowed))).map
          (mkErrRow idCols nm c)] := by
  rw [show runRule rlike idCols df (.enum nm c allowed) =
    [collectError idCols df (fun r => sqlIsin (rget r c) allowed) nm c] from rfl]
  unfold collectError
  congr 2
  apply List.filter_congr
  intro r _
  exact enum_fail_iff (rget r c) allowed

end Engine

namespace Engine

theorem tand_some (a b : Bool) : tand (some a) (some b) = some (a && b) := by
  cases a <;> cases b <;> rfl

theorem tand_some_false (x : Option Bool) : tand (some false) x = some false := by
  cases x with
  | none => rfl
  | some b => cases b <;> rfl

theorem beq_some_true (x : Bool) : ((some x == some true) : Bool) = x := by
  cases x <;> rfl

theorem castString_of_castDec_some (p s : Nat) (v : Val) (q : DecNum)
    (h : castDec p s v = some q) : ∃ t, castString v = some t := by
  cases v with
  | vnull => simp [castDec, castDouble] at h
  | vstr s2 => exact ⟨s2, rfl⟩
  | vnum q2 => exact ⟨q2.repr, rfl⟩
  | vbool b2 => exact ⟨if b2 then "true" else "false", rfl⟩

theorem scaleOkV_of_castString (s : Nat) (v : Val) (t : String)
    (ht : castString v = some t) :
    scaleOkV s v = some (decide (fracCount1 t ≤ s)) := by
  simp only [scaleOkV, ht, Option.map_some']
  congr 1
  unfold fracCount1
  by_cases hf : (fracDigits t == "") = true
  · simp [hf, show "0".length = 1 from rfl]
  · simp [hf]

theorem decimal_fail_iff (p s : Nat) (exact : Bool) (lo hi : Option DecNum) (v : Val)
    (hlo : ∀ b, lo = some b → (castDecD p s b).isSome = true)
    (hhi : ∀ b, hi = some b → (castDecD p s b).isSome = true) :
    (tnot (maskDecimalV p s exact lo hi v) == some true) = !decimalPass p s exact lo hi v := by
  cases hdec : castDec p s v with
  | none =>
    simp only [maskDecimalV, decimalPass, hdec, Option.isSome_none]
    have hm1 : (if exact then tand (some false) (scaleOkV s v) else some false) = some false := by
      cases exact <;> simp [tand_some_false]
    rw [hm1]
    cases lo <;> cases hi <;> simp [tand_some_false, tnot, beq_some_true]
  | some q =>
    obtain ⟨t, ht⟩ := castString_of_castDec_some p s v q hdec
    have hscale := scaleOkV_of_castString s v t ht
    have hfc : (castString v).getD "" = t := by rw [ht]; rfl
    simp only [maskDecimalV, decimalPass, hdec, Option.isSome_some, hfc]
    have hm1 : (if exact then tand (some true) (scaleOkV s v) else some true) =
        some (!exact || decide (fracCount1 t ≤ s)) := by
      cases exact
      · simp
      · rw [if_pos rfl, hscale, tand_some]
        simp
    rw [hm1]
    cases lo with
    | none =>
      cases hi with
      | none => simp [tnot, beq_some_true]
      | some b =>
        obtain ⟨m, hm⟩ := Option.isSome_iff_exists.mp (hhi b rfl)
        simp only [hm, cmpLe, tand_some]
        simp [tnot, beq_some_true, Bool.and_assoc]
    | some b =>
      obtain ⟨m, hm⟩ := Option.isSome_iff_exists.mp (hlo b rfl)
      cases hi with
      | none =>
        simp only [hm, cmpGe, tand_some]
        simp [tnot, beq_some_true]
      | some b2 =>
        obtain ⟨m2, hm2⟩ := Option.isSome_iff_exists.mp (hhi b2 rfl)
        simp only [hm, hm2, cmpGe, cmpLe, tand_some]
        simp [tnot, beq_some_true, Bool.and_assoc]

/-- C8 counterexample: with precision 10, scale 0 and `exact_scale`, the
textual value "123" — which has no fractional digits — casts cleanly yet
is emitted as a violation, because the engine computes its fractional
digit count as 1 (the length of the substituted "0"), not 0. -/
theorem decimal_no_fraction_counterexample :
    fracDigits "123" = "" ∧
    castDec 10 0 (Val.vstr "123") = some ⟨123, 0⟩ ∧
    runRule rlikeNone ["id"] dfC8x (.decimal (some "d") "v" 10 0 true none none) =
      [[mkErrRow ["id"] (some "d") "v" [("id", .vstr "1"), ("v", .vstr "123")]]] := by
  refine ⟨rfl, by decide, by decide⟩

/-- C8 amended: a row passes the decimal rule iff its value casts into
`Decimal(precision, scale)` without overflow, with `exact_scale` the
fractional digit count of the original textual value is within the scale
— where a value with no fractional digits counts as 1, not 0 — and the
cast value respects the representable bounds; the violation partial holds
exactly the failing rows. -/
theorem decimal_violation_semantics (rlike : String → String → Bool) (idCols : List String)
    (df : DF) (nm : Option String) (c : String) (p s : Nat) (exact : Bool)
    (lo hi : Option DecNum)
    (hlo : ∀ b, lo = some b → (castDecD p s b).isSome = true)
    (hhi : ∀ b, hi = some b → (castDecD p s b).isSome = true) :
    runRule rlike idCols df (.decimal nm c p s exact lo hi) =
      [(df.rows.filter (fun r => !decimalPass p s exact lo hi (rget r c))).map
        (mkErrRow idCols nm c)] := by
  rw [show runRule rlike idCols df (.decimal nm c p s exact lo hi) =
    [collectError idCols df (maskDecimal c p s exact lo hi) nm c] from rfl]
  unfold collectError
  congr 2
  apply List.filter_congr
  intro r _
  exact decimal_fail_iff p s exact lo hi (rget r c) hlo hhi

/-- C8 witness: scale-2 exact decimal on "12.345" and "12.34" — the first
is the only violation. -/
theorem decimal_violation_semantics_witness :
    (runRule rlikeNone ["id"] dfC8w (.decimal (some "d") "v" 10 2 true none none) =
      [(dfC8w.rows.filter (fun r => !decimalPass 10 2 true none none (rget r "v"))).map
        (mkErrRow ["id"] (some "d") "v")]) ∧
    decimalPass 10 2 true none none (Val.vstr "12.345") = false ∧
    decimalPass 10 2 true none none (Val.vstr "12.34") = true :=
  ⟨decimal_violation_semantics rlikeNone ["id"] dfC8w (some "d") "v" 10 2 true none none
    (fun b hb => nomatch hb) (fun b hb => nomatch hb), by decide, by decide⟩

end Engine

namespace Flatten

theorem sum_map_const_on {A : Type} (l : List A) (f : A → Nat) (c : Nat)
    (h : ∀ x ∈ l, f x = c) : (l.map f).sum = l.length * c := by
  induction l with
  | nil => simp
  | cons a t ih =>
    simp only [List.map_cons, List.sum_cons, List.length_cons]
    rw [h a (by simp), ih (fun x hx => h x (by simp [hx]))]
    rw [Nat.succ_mul]
    omega

theorem explodeAt_explodeAt_length (i j : Nat) (hne : i ≠ j) (df : NDF) :
    (explodeAt j (explodeAt i df)).rows.length =
      (df.rows.map fun r => arity (r.getD i .null) * arity (r.getD j .null)).sum := by
  rw [explodeAt_length]
  show ((df.rows.flatMap (explodeRowAt i)).map (fun r => arity (r.getD j .null))).sum = _
  induction df.rows with
  | nil => rfl
  | cons r t ih =>
    simp only [List.flatMap_cons, List.map_append, List.sum_append, List.map_cons, List.sum_cons]
    rw [ih]
    congr 1
    rw [sum_map_const_on (explodeRowAt i r) _ (arity (r.getD j .null))
      (fun r2 h2 => by rw [explodeRowAt_getD_ne i j hne r r2 h2])]
    rw [explodeRowAt_length]

/-- C5: struct flattening is idempotent — composing `flatten` with itself
equals a single `flatten` — and the full flatten/explode pipeline on an
already-flat relation (no struct columns, no array-of-struct columns)
returns it unchanged with an empty exploded-names list. -/
theorem flatten_idempotent :
    (∀ (sep : String) (df : NDF),
      (flattenStructs sep df).bind (flattenStructs sep) = flattenStructs sep df) ∧
    (∀ (sep : String) (df : NDF),
      hasStructs df.schema = false →
      df.schema.findIdx? (fun f => isArrStruct f.2) = none →
      flattenAll sep true df = .ok (df, [])) := by
  constructor
  · intro sep df
    cases h : flattenStructs sep df with
    | error e => rfl
    | ok df2 =>
      show flattenStructs sep df2 = Except.ok df2
      have hs := flattenStructsFuel_ok_no_structs sep 100 df df2 h
      exact flattenStructsFuel_flat_id sep 99 df2 hs
  · intro sep df hflat harr
    unfold flattenAll
    have h0 : flattenStructs sep df = .ok df := flattenStructsFuel_flat_id sep 99 df hflat
    rw [h0]
    show explodeLoop sep 100 df [] = .ok (df, [])
    unfold explodeLoop
    rw [harr]

/-- C5 witness: the pipeline is a no-op on a concrete flat relation. -/
theorem flatten_idempotent_witness :
    hasStructs dfFlatW.schema = false ∧ flattenAll "." true dfFlatW = .ok (dfFlatW, []) :=
  ⟨rfl, flatten_idempotent.2 "." dfFlatW rfl rfl⟩

/-- C6: outer explosion of an array column produces Σ over rows of
max(1, array length) output rows; a row whose array is null or empty
contributes exactly one row with the exploded column null (never
dropped); and row counts compose multiplicatively across sequential
explosions of two distinct columns. -/
theorem explode_row_count_law :
    (∀ (idx : Nat) (df : NDF),
      (explodeAt idx df).rows.length = (df.rows.map fun r => arity (r.getD idx .null)).sum) ∧
    (∀ (idx : Nat) (row : List NVal),
      (row.getD idx .null = .null ∨ row.getD idx .null = .arr []) →
      explodeRowAt idx row = [row.set idx .null]) ∧
    (∀ (i j : Nat) (df : NDF), i ≠ j →
      (explodeAt j (explodeAt i df)).rows.length =
        (df.rows.map fun r => arity (r.getD i .null) * arity (r.getD j .null)).sum) := by
  refine ⟨explodeAt_length, ?_, fun i j df hne => explodeAt_explodeAt_length i j hne df⟩
  intro idx row h
  unfold explodeRowAt
  rcases h with h | h <;> rw [h] <;> rfl

/-- C6 witness: the multiplicative count law at a concrete two-array
relation (2×3 + 1×1 = 7 rows). -/
theorem explode_row_count_law_witness :
    ((0 : Nat) ≠ 1) ∧
    (explodeAt 1 (explodeAt 0 dfExpW)).rows.length =
      (dfExpW.rows.map fun r => arity (r.getD 0 .null) * arity (r.getD 1 .null)).sum :=
  ⟨by decide, explode_row_count_law.2.2 0 1 dfExpW (by decide)⟩

end Flatten

namespace RuleSchema

theorem find?_cons_pos {A : Type} (a : A) (l : List A) (p : A → Bool) (h : p a = true) :
    (a :: l).find? p = some a := by
  simp [List.find?_cons, h]

theorem find?_cons_neg {A : Type} (a : A) (l : List A) (p : A → Bool) (h : p a = false) :
    (a :: l).find? p = l.find? p := by
  simp [List.find?_cons, h]

theorem findSet_self (fs : List (String × Json)) (k : String) (v : Json)
    (ha : fs.any (fun p => p.1 == k) = true) :
    (fs.map (fun p => if p.1 == k then (k, v) else p)).find? (fun p => p.1 == k) = some (k, v) := by
  induction fs with
  | nil => simp at ha
  | cons p t ih =>
    by_cases hp : (p.1 == k) = true
    · simp only [List.map_cons, hp, if_pos]
      exact find?_cons_pos (k, v) (t.map (fun p => if p.1 == k then (k, v) else p)) (fun q => q.1 == k) (by simp)
    · simp only [List.map_cons, hp, Bool.false_eq_true, if_false]
      rw [find?_cons_neg p (t.map (fun p => if p.1 == k then (k, v) else p)) (fun q => q.1 == k) (by simpa using hp)]
      apply ih
      rcases List.any_eq_true.mp ha with ⟨q, hq, hqk⟩
      rcases List.mem_cons.mp hq with hq1 | hq1
      · exact absurd (hq1 ▸ hqk) (by simpa using hp)
      · exact List.any_eq_true.mpr ⟨q, hq1, hqk⟩

theorem findApp_new (fs : List (String × Json)) (k : String) (v : Json)
    (hnone : fs.find? (fun p => p.1 == k) = none) :
    (fs ++ [(k, v)]).find? (fun p => p.1 == k) = some (k, v) := by
  induction fs with
  | nil => exact find?_cons_pos (k, v) [] (fun q => q.1 == k) (by simp)
  | cons p t ih =>
    have hp : (p.1 == k) = false := by
      cases hb : (p.1 == k)
      · rfl
      · rw [find?_cons_pos p t (fun q => q.1 == k) hb] at hnone
        exact absurd hnone (by simp)
    rw [find?_cons_neg p t (fun q => q.1 == k) hp] at hnone
    rw [List.cons_append, find?_cons_neg p (t ++ [(k, v)]) (fun q => q.1 == k) hp]
    exact ih hnone

theorem find2_set (fs : List (String × Json)) (k k2 : String) (v : Json)
    (h : (k2 == k) = false) :
    (fs.map (fun p => if p.1 == k then (k, v) else p)).find? (fun p => p.1 == k2) =
      fs.find? (fun p => p.1 == k2) := by
  have hk : (k == k2) = false := by
    cases hb : (k == k2)
    · rfl
    · rw [show k2 = k from (eq_of_beq hb).symm] at h
      simp at h
  induction fs with
  | nil => rfl
  | cons p t ih =>
    by_cases hp : (p.1 == k) = true
    · simp only [List.map_cons, hp, if_pos]
      rw [find?_cons_neg (k, v) (t.map (fun p => if p.1 == k then (k, v) else p)) (fun q => q.1 == k2) (by simpa using hk)]
      rw [find?_cons_neg p t (fun q => q.1 == k2) (by simp [eq_of_beq hp, hk])]
      exact ih
    · simp only [List.map_cons, hp, Bool.false_eq_true, if_false]
      cases hb : (p.1 == k2) with
      | true =>
        rw [find?_cons_pos p (t.map (fun p => if p.1 == k then (k, v) else p)) (fun q => q.1 == k2) hb,
          find?_cons_pos p t (fun q => q.1 == k2) hb]
      | false =>
        rw [find?_cons_neg p (t.map (fun p => if p.1 == k then (k, v) else p)) (fun q => q.1 == k2) hb,
          find?_cons_neg p t (fun q => q.1 == k2) hb]
        exact ih

theorem find2_app (fs : List (String × Json)) (k k2 : String) (v : Json)
    (h : (k2 == k) = false) :
    (fs ++ [(k, v)]).find? (fun p => p.1 == k2) = fs.find? (fun p => p.1 == k2) := by
  have hk : (k == k2) = false := by
    cases hb : (k == k2)
    · rfl
    · rw [show k2 = k from (eq_of_beq hb).symm] at h
      simp at h
  induction fs with
  | nil =>
    simp only [List.nil_append]
    rw [find?_cons_neg (k, v) [] (fun q => q.1 == k2) (by simpa using hk)]
  | cons p t ih =>
    rw [List.cons_append]
    cases hb : (p.1 == k2) with
    | true =>
      rw [find?_cons_pos p (t ++ [(k, v)]) (fun q => q.1 == k2) hb,
        find?_cons_pos p t (fun q => q.1 == k2) hb]
    | false =>
      rw [find?_cons_neg p (t ++ [(k, v)]) (fun q => q.1 == k2) hb,
        find?_cons_neg p t (fun q => q.1 == k2) hb]
      exact ih

theorem jget_jset_self (fs : List (String × Json)) (k : String) (v : Json) :
    jget (jset (.obj fs) k v) k = some v := by
  rw [show jset (.obj fs) k v =
    (if fs.any (fun p => p.1 == k) then
      Json.obj (fs.map (fun p => if p.1 == k then (k, v) else p))
     else Json.obj (fs ++ [(k, v)])) from rfl]
  by_cases ha : fs.any (fun p => p.1 == k) = true
  · rw [if_pos ha]
    show ((fs.map (fun p => if p.1 == k then (k, v) else p)).find?
      (fun p => p.1 == k)).map (fun p => p.2) = some v
    rw [findSet_self fs k v ha]
    rfl
  · rw [if_neg ha]
    show ((fs ++ [(k, v)]).find? (fun p => p.1 == k)).map (fun p => p.2) = some v
    rw [findApp_new fs k v (by
      rw [List.find?_eq_none]
      intro x hx hxk
      exact ha (List.any_eq_true.mpr ⟨x, hx, hxk⟩))]
    rfl

theorem jget_jset_ne (j : Json) (k k2 : String) (v : Json) (h : (k2 == k) = false) :
    jget (jset j k v) k2 = jget j k2 := by
  cases j with
  | obj fs =>
    rw [show jset (.obj fs) k v =
      (if fs.any (fun p => p.1 == k) then
        Json.obj (fs.map (fun p => if p.1 == k then (k, v) else p))
       else Json.obj (fs ++ [(k, v)])) from rfl]
    by_cases ha : fs.any (fun p => p.1 == k) = true
    · rw [if_pos ha]
      show ((fs.map (fun p => if p.1 == k then (k, v) else p)).find?
        (fun p => p.1 == k2)).map (fun p => p.2) =
        (fs.find? (fun p => p.1 == k2)).map (fun p => p.2)
      rw [find2_set fs k k2 v h]
    · rw [if_neg ha]
      show ((fs ++ [(k, v)]).find? (fun p => p.1 == k2)).map (fun p => p.2) =
        (fs.find? (fun p => p.1 == k2)).map (fun p => p.2)
      rw [find2_app fs k k2 v h]
  | null => rfl
  | bool b => rfl
  | num q => rfl
  | str s => rfl
  | arr l => rfl

end RuleSchema

namespace RuleSchema

theorem append2_ne_dup (a b : String) (c0 : Char) (arest : String)
    (ha : a.data = c0 :: arest.data) (hc : (c0 == 'D') = false) :
    ((a ++ b) == "Duplicate rule name") = false := by
  rw [beq_eq_false_iff_ne]
  intro hEq
  have hd := congrArg String.data hEq
  rw [String.data_append, ha, List.cons_append] at hd
  rw [show ("Duplicate rule name").data = 'D' :: ("uplicate rule name").data from rfl] at hd
  injection hd with h1 _
  exact absurd h1 (by simpa using hc)

theorem append3_ne_dup (a b c : String) (c0 : Char) (arest : String)
    (ha : a.data = c0 :: arest.data) (hc : (c0 == 'D') = false) :
    ((a ++ b ++ c) == "Duplicate rule name") = false := by
  rw [beq_eq_false_iff_ne]
  intro hEq
  have hd := congrArg String.data hEq
  rw [String.data_append, String.data_append, ha, List.cons_append, List.cons_append] at hd
  rw [show ("Duplicate rule name").data = 'D' :: ("uplicate rule name").data from rfl] at hd
  injection hd with h1 _
  exact absurd h1 (by simpa using hc)

theorem requireKeys_no_dup (rule : Json) (keys : List String) (path rname rtype : String) :
    ∀ i ∈ requireKeys rule keys path rname rtype, (i.message == "Duplicate rule name") = false := by
  intro i hi
  unfold requireKeys at hi
  rcases List.mem_filterMap.mp hi with ⟨k, _, hk⟩
  by_cases hg : (jget rule k).isSome
  · simp [hg] at hk
  · simp only [hg, Bool.false_eq_true, if_false, Option.some.injEq] at hk
    rw [← hk]
    exact append3_ne_dup "Missing required key \x27" k "\x27" 'M' "issing required key \x27" rfl rfl

theorem requireList_no_dup (rule : Json) (key : String) (path rname rtype : String) :
    ∀ i ∈ requireList rule key path rname rtype, (i.message == "Duplicate rule name") = false := by
  intro i hi
  unfold requireList at hi
  by_cases hok : (match jget rule key with
      | some (.arr its) =>
        !its.isEmpty && its.all (fun x => match x with | .str s => pyStrip s != "" | _ => false)
      | _ => false) = true
  · rw [if_pos hok] at hi
    simp at hi
  · rw [if_neg hok] at hi
    rcases List.mem_singleton.mp hi with rfl
    exact append3_ne_dup "Provide non-empty list of strings in \x27" key "\x27" 'P'
      "rovide non-empty list of strings in \x27" rfl rfl

theorem warnUnknown_no_dup (cfg : NCfg) (rule : Json) (key : String) (rname rtype path : String) :
    ∀ i ∈ warnUnknown cfg rule key rname rtype path, (i.message == "Duplicate rule name") = false := by
  intro i hi
  unfold warnUnknown at hi
  cases hdc : cfg.datasetColumns with
  | none =>
    rw [hdc] at hi
    simp at hi
  | some cs =>
    rw [hdc] at hi
    simp only at hi
    by_cases h1 : cs.isEmpty
    · rw [if_pos h1] at hi
      simp at hi
    · rw [if_neg h1] at hi
      by_cases h2 : (key == "column") = true
      · rw [if_pos h2] at hi
        split at hi
        next c heq =>
          by_cases h3 : cs.contains c
          · rw [if_pos h3] at hi
            simp at hi
          · rw [if_neg h3] at hi
            rcases List.mem_singleton.mp hi with rfl
            exact append3_ne_dup "Column \x27" c "\x27 not in dataset hint" 'C' "olumn \x27" rfl rfl
        next => simp at hi
      · rw [if_neg h2] at hi
        split at hi
        next lst heq =>
          by_cases h3 : (lst.filter (fun j => match j with | .str s => !cs.contains s | _ => true)).isEmpty
          · rw [if_pos h3] at hi
            simp at hi
          · rw [if_neg h3] at hi
            rcases List.mem_singleton.mp hi with rfl
            exact append2_ne_dup "Columns not in dataset hint: " _ 'C'
              "olumns not in dataset hint: " rfl rfl
        next => simp at hi

end RuleSchema

namespace RuleSchema

theorem mem_ite_list {A : Type} (i : A) (c : Prop) [Decidable c] (l1 l2 : List A)
    (h : i ∈ (if c then l1 else l2)) : i ∈ l1 ∨ i ∈ l2 := by
  by_cases hc : c
  · rw [if_pos hc] at h
    exact Or.inl h
  · rw [if_neg hc] at h
    exact Or.inr h

theorem vHeadersR_spec (cfg : NCfg) (rule : Json) (rname rtype path : String)
    (rule2 : Json) (vIss : List NIssue)
    (h : vHeadersR cfg rule rname rtype path = .ok (rule2, vIss)) :
    rule2 = rule ∧ ∀ i ∈ vIss, (i.message == "Duplicate rule name") = false := by
  unfold vHeadersR at h
  cases hdc : cfg.datasetColumns with
  | none =>
    rw [hdc] at h
    simp only at h
    have hp := Except.ok.inj h
    injection hp with h1 h2
    refine ⟨h1.symm, ?_⟩
    intro i hi
    rw [← h2] at hi
    exact requireList_no_dup rule "columns" path rname rtype i hi
  | some cs =>
    rw [hdc] at h
    simp only at h
    by_cases he : cs.isEmpty = true
    · rw [if_pos he] at h
      have hp := Except.ok.inj h
      injection hp with h1 h2
      refine ⟨h1.symm, ?_⟩
      intro i hi
      rw [← h2] at hi
      exact requireList_no_dup rule "columns" path rname rtype i hi
    · rw [if_neg he] at h
      cases hit : jIterL ((jget rule "columns").getD (.arr [])) with
      | none =>
        rw [hit] at h
        simp at h
      | some items =>
        rw [hit] at h
        simp only at h
        by_cases hm : (items.filter (fun j => match j with | .str s => !cs.contains s | _ => true)).isEmpty = true
        · rw [if_pos hm] at h
          have hp := Except.ok.inj h
          injection hp with h1 h2
          refine ⟨h1.symm, ?_⟩
          intro i hi
          rw [← h2] at hi
          exact requireList_no_dup rule "columns" path rname rtype i hi
        · rw [if_neg hm] at h
          have hp := Except.ok.inj h
          injection hp with h1 h2
          refine ⟨h1.symm, ?_⟩
          intro i hi
          rw [← h2] at hi
          rcases List.mem_append.mp hi with hi1 | hi1
          · exact requireList_no_dup rule "columns" path rname rtype i hi1
          · rcases List.mem_singleton.mp hi1 with rfl
            exact append2_ne_dup "Columns not in dataset hint: " _ 'C'
              "olumns not in dataset hint: " rfl rfl

theorem vNonEmptyR_spec (cfg : NCfg) (rule : Json) (rname rtype path : String)
    (rule2 : Json) (vIss : List NIssue)
    (h : vNonEmptyR cfg rule rname rtype path = .ok (rule2, vIss)) :
    rule2 = rule ∧ ∀ i ∈ vIss, (i.message == "Duplicate rule name") = false := by
  have hp := Except.ok.inj h
  injection hp with h1 h2
  refine ⟨h1.symm, ?_⟩
  intro i hi
  rw [← h2] at hi
  rcases List.mem_append.mp hi with hi1 | hi1
  · exact requireList_no_dup rule "columns" path rname rtype i hi1
  · exact warnUnknown_no_dup cfg rule "columns" rname rtype path i hi1

theorem vRangeR_spec (cfg : NCfg) (rule : Json) (rname rtype path : String)
    (rule2 : Json) (vIss : List NIssue)
    (h : vRangeR cfg rule rname rtype path = .ok (rule2, vIss)) :
    rule2 = rule ∧ ∀ i ∈ vIss, (i.message == "Duplicate rule name") = false := by
  have hp := Except.ok.inj h
  injection hp with h1 h2
  refine ⟨h1.symm, ?_⟩
  intro i hi
  rw [← h2] at hi
  rcases List.mem_append.mp hi with hi1 | hi1
  · rcases List.mem_append.mp hi1 with hi2 | hi2
    · exact requireKeys_no_dup rule ["column", "min", "max"] path rname rtype i hi2
    · exact warnUnknown_no_dup cfg rule "column" rname rtype path i hi2
  · rcases mem_ite_list i _ _ _ hi1 with hi2 | hi2
    · split at hi2
      · rcases mem_ite_list i _ _ _ hi2 with hi3 | hi3
        · rcases List.mem_singleton.mp hi3 with rfl
          rfl
        · simp at hi3
      · rcases List.mem_singleton.mp hi2 with rfl
        rfl
    · simp at hi2

theorem vEnumR_spec (cfg : NCfg) (rule : Json) (rname rtype path : String)
    (rule2 : Json) (vIss : List NIssue)
    (h : vEnumR cfg rule rname rtype path = .ok (rule2, vIss)) :
    jget rule2 "name" = jget rule "name" ∧
      ∀ i ∈ vIss, (i.message == "Duplicate rule name") = false := by
  have hp := Except.ok.inj h
  injection hp with h1 h2
  constructor
  · rw [← h1]
    by_cases ha : ((jget rule "allowed").isNone && (jget rule "allowedValues").isSome) = true
    · simp only [ha, if_pos]
      exact jget_jset_ne rule "allowed" "name" _ (by decide)
    · simp only [ha, Bool.false_eq_true, if_false]
  · intro i hi
    rw [← h2] at hi
    rcases List.mem_append.mp hi with hi1 | hi1
    · rcases List.mem_append.mp hi1 with hi2 | hi2
      · exact requireKeys_no_dup rule ["column"] path rname rtype i hi2
      · exact warnUnknown_no_dup cfg rule "column" rname rtype path i hi2
    · split at hi1
      · rcases mem_ite_list i _ _ _ hi1 with hi2 | hi2
        · rcases List.mem_singleton.mp hi2 with rfl
          rfl
        · simp at hi2
      · rcases List.mem_singleton.mp hi1 with rfl
        rfl

theorem vLengthR_spec (cfg : NCfg) (rule : Json) (rname rtype path : String)
    (rule2 : Json) (vIss : List NIssue)
    (h : vLengthR cfg rule rname rtype path = .ok (rule2, vIss)) :
    jget rule2 "name" = jget rule "name" ∧
      ∀ i ∈ vIss, (i.message == "Duplicate rule name") = false := by
  unfold vLengthR at h
  cases hmn : pyInt ((jget rule "min").getD (.num ⟨0, 0⟩)) with
  | none => rw [hmn] at h; simp at h
  | some mn =>
    cases hmx : pyInt ((jget rule "max").getD (.num ⟨1000000, 0⟩)) with
    | none => rw [hmn, hmx] at h; simp at h
    | some mx =>
      rw [hmn, hmx] at h
      simp only at h
      have hp := Except.ok.inj h
      injection hp with h1 h2
      constructor
      · rw [← h1]
        rw [jget_jset_ne _ "max" "name" _ (by decide)]
        exact jget_jset_ne rule "min" "name" _ (by decide)
      · intro i hi
        rw [← h2] at hi
        rcases List.mem_append.mp hi with hi1 | hi1
        · rcases List.mem_append.mp hi1 with hi2 | hi2
          · exact requireKeys_no_dup rule ["column"] path rname rtype i hi2
          · exact warnUnknown_no_dup cfg rule "column" rname rtype path i hi2
        · rcases mem_ite_list i _ _ _ hi1 with hi2 | hi2
          · rcases List.mem_singleton.mp hi2 with rfl
            rfl
          · simp at hi2

theorem vRegexR_spec (cfg : NCfg) (reErr : String → Option String) (rule : Json)
    (rname rtype path : String) (rule2 : Json) (vIss : List NIssue)
    (h : vRegexR cfg reErr rule rname rtype path = .ok (rule2, vIss)) :
    rule2 = rule ∧ ∀ i ∈ vIss, (i.message == "Duplicate rule name") = false := by
  have hp := Except.ok.inj h
  injection hp with h1 h2
  refine ⟨h1.symm, ?_⟩
  intro i hi
  rw [← h2] at hi
  rcases List.mem_append.mp hi with hi1 | hi1
  · rcases List.mem_append.mp hi1 with hi2 | hi2
    · exact requireKeys_no_dup rule ["column", "pattern"] path rname rtype i hi2
    · exact warnUnknown_no_dup cfg rule "column" rname rtype path i hi2
  · split at hi1
    next e heq =>
      rcases List.mem_singleton.mp hi1 with rfl
      exact append2_ne_dup "Invalid regex: " e 'I' "nvalid regex: " rfl rfl
    next => simp at hi1

theorem vUniqueR_spec (cfg : NCfg) (rule : Json) (rname rtype path : String)
    (rule2 : Json) (vIss : List NIssue)
    (h : vUniqueR cfg rule rname rtype path = .ok (rule2, vIss)) :
    rule2 = rule ∧ ∀ i ∈ vIss, (i.message == "Duplicate rule name") = false := by
  have hp := Except.ok.inj h
  injection hp with h1 h2
  refine ⟨h1.symm, ?_⟩
  intro i hi
  rw [← h2] at hi
  rcases List.mem_append.mp hi with hi1 | hi1
  · exact requireList_no_dup rule "columns" path rname rtype i hi1
  · exact warnUnknown_no_dup cfg rule "columns" rname rtype path i hi1

theorem vDecimalR_spec (cfg : NCfg) (rule : Json) (rname rtype path : String)
    (rule2 : Json) (vIss : List NIssue)
    (h : vDecimalR cfg rule rname rtype path = .ok (rule2, vIss)) :
    jget rule2 "name" = jget rule "name" ∧
      ∀ i ∈ vIss, (i.message == "Duplicate rule name") = false := by
  unfold vDecimalR at h
  cases hmn : pyInt ((jget rule "precision").getD (.num ⟨18, 0⟩)) with
  | none => rw [hmn] at h; simp at h
  | some prec =>
    cases hmx : pyInt ((jget rule "scale").getD (.num ⟨2, 0⟩)) with
    | none => rw [hmn, hmx] at h; simp at h
    | some scale =>
      rw [hmn, hmx] at h
      simp only at h
      have hp := Except.ok.inj h
      injection hp with h1 h2
      constructor
      · rw [← h1]
        rw [jget_jset_ne _ "exact_scale" "name" _ (by decide)]
        rw [jget_jset_ne _ "scale" "name" _ (by decide)]
        exact jget_jset_ne rule "precision" "name" _ (by decide)
      · intro i hi
        rw [← h2] at hi
        rcases List.mem_append.mp hi with hi1 | hi1
        · rcases List.mem_append.mp hi1 with hi2 | hi2
          · rcases List.mem_append.mp hi2 with hi3 | hi3
            · exact requireKeys_no_dup rule ["column"] path rname rtype i hi3
            · exact warnUnknown_no_dup cfg rule "column" rname rtype path i hi3
          · rcases mem_ite_list i _ _ _ hi2 with hi3 | hi3
            · rcases List.mem_singleton.mp hi3 with rfl
              rfl
            · simp at hi3
        · rcases List.mem_filterMap.mp hi1 with ⟨b, hb, hbi⟩
          split at hbi
          next v2 heq =>
            by_cases hn : isNumber v2
            · simp [hn] at hbi
            · simp only [hn, Bool.false_eq_true, if_false, Option.some.injEq] at hbi
              rw [← hbi]
              exact append3_ne_dup "\x27" b "\x27 must be numeric if provided" '\x27' "" rfl rfl
          next => simp at hbi

theorem runValidatorR_spec (cfg : NCfg) (reErr : String → Option String) (rtype : String)
    (rule : Json) (rname path : String) (rule2 : Json) (vIss : List NIssue)
    (h : runValidatorR cfg reErr rtype rule rname path = .ok (rule2, vIss)) :
    jget rule2 "name" = jget rule "name" ∧
      ∀ i ∈ vIss, (i.message == "Duplicate rule name") = false := by
  unfold runValidatorR at h
  split at h
  · obtain ⟨he, hm⟩ := vHeadersR_spec cfg rule rname rtype path rule2 vIss h
    exact ⟨by rw [he], hm⟩
  · split at h
    · obtain ⟨he, hm⟩ := vNonEmptyR_spec cfg rule rname rtype path rule2 vIss h
      exact ⟨by rw [he], hm⟩
    · split at h
      · obtain ⟨he, hm⟩ := vRangeR_spec cfg rule rname rtype path rule2 vIss h
        exact ⟨by rw [he], hm⟩
      · split at h
        · exact vEnumR_spec cfg rule rname rtype path rule2 vIss h
        · split at h
          · exact vLengthR_spec cfg rule rname rtype path rule2 vIss h
          · split at h
            · obtain ⟨he, hm⟩ := vRegexR_spec cfg reErr rule rname rtype path rule2 vIss h
              exact ⟨by rw [he], hm⟩
            · split at h
              · obtain ⟨he, hm⟩ := vUniqueR_spec cfg rule rname rtype path rule2 vIss h
                exact ⟨by rw [he], hm⟩
              · split at h
                · exact vDecimalR_spec cfg rule rname rtype path rule2 vIss h
                · simp at h

end RuleSchema

namespace RuleSchema

theorem getD_append_lt {A : Type} (l : List A) (x d : A) (k : Nat) (h : k < l.length) :
    (l ++ [x]).getD k d = l.getD k d := by
  induction l generalizing k with
  | nil => simp at h
  | cons a t ih =>
    cases k with
    | zero => rfl
    | succ k2 => exact ih k2 (by simpa using h)

theorem getD_append_self {A : Type} (l : List A) (x d : A) :
    (l ++ [x]).getD l.length d = x := by
  induction l with
  | nil => rfl
  | cons a t ih => exact ih

theorem unsupportedMsg_no_dup (rtype : String) :
    ((unsupportedMsg rtype) == "Duplicate rule name") = false :=
  append3_ne_dup "Unsupported type \x27" rtype
    "\x27. Supported: [\x27headers\x27, \x27non_empty\x27, \x27range\x27, \x27enum\x27, \x27length\x27, \x27regex\x27, \x27unique\x27, \x27decimal\x27]"
    'U' "nsupported type \x27" rfl rfl

theorem nLoop_collect_spec (cfg : NCfg) (reErr : String → Option String) (rules : List Json)
    (hff : cfg.failFast = false) :
    ∀ (rest : List Json) (idx : Nat) (done : List Json) (st : NState),
      rest = rules.drop idx →
      (∀ s, st.seen.contains s = true ↔
        ∃ j, j < idx ∧ supportedAt rules j = true ∧ nameAt rules j = s) →
      (∀ r2 st2, nLoop cfg reErr idx done rest st = .ok (.inl (r2, st2)) →
        (r2.length = done.length + rest.length ∧
         (∀ k, k < done.length → r2.getD k .null = done.getD k .null) ∧
         (∀ k, k < rest.length →
           jget (r2.getD (done.length + k) .null) "name" =
             some (.str (nameAt rules (idx + k))))) ∧
        st2.issues.filter (fun i => i.message == "Duplicate rule name") =
          st.issues.filter (fun i => i.message == "Duplicate rule name") ++
            ((List.range' idx rest.length).filter (dupAt rules)).map (dupIssueAt rules)) ∧
      (∀ res, nLoop cfg reErr idx done rest st = .ok (.inr res) → False) := by
  intro rest
  induction rest with
  | nil =>
    intro idx done st hrest hseen
    constructor
    · intro r2 st2 h
      have hp := Sum.inl.inj (Except.ok.inj h)
      have h1 : done = r2 := congrArg Prod.fst hp
      have h2 : st = st2 := congrArg Prod.snd hp
      subst h1
      subst h2
      refine ⟨⟨by simp, fun k hk => rfl, fun k hk => by simp at hk⟩, ?_⟩
      simp [List.range']
    · intro res h
      simp [nLoop] at h
  | cons rule rest2 ih =>
    intro idx done st hrest hseen
    have hidx : rules[idx]? = some rule := by
      have h0 : (rules.drop idx)[0]? = some rule := by rw [← hrest]; simp
      rw [List.getElem?_drop] at h0
      simpa using h0
    have hgidx : rules.getD idx .null = rule := by
      simp [List.getD, hidx]
    have hrest2 : rest2 = rules.drop (idx + 1) := by
      have hd := congrArg (List.drop 1) hrest
      rw [List.drop_drop] at hd
      simpa using hd
    cases rule with
    | null => exact ⟨fun r2 st2 h => by simp [nLoop] at h, fun res h => by simp [nLoop] at h⟩
    | bool b => exact ⟨fun r2 st2 h => by simp [nLoop] at h, fun res h => by simp [nLoop] at h⟩
    | num q => exact ⟨fun r2 st2 h => by simp [nLoop] at h, fun res h => by simp [nLoop] at h⟩
    | str s => exact ⟨fun r2 st2 h => by simp [nLoop] at h, fun res h => by simp [nLoop] at h⟩
    | arr l => exact ⟨fun r2 st2 h => by simp [nLoop] at h, fun res h => by simp [nLoop] at h⟩
    | obj fs =>
      by_cases hsup : SUPPORTED.contains (typeStrOf (Json.obj fs)) = true
      · -- supported type: name registered, duplicate check against earlier names
        have hsupt : supportedAt rules idx = true := by
          unfold supportedAt
          rw [hgidx]
          exact hsup
        have hnmidx : nameAt rules idx = normName idx (Json.obj fs) := by
          unfold nameAt
          rw [hgidx]
        have hdup : st.seen.contains (normName idx (Json.obj fs)) = dupAt rules idx := by
          rw [Bool.eq_iff_iff]
          rw [hseen (normName idx (Json.obj fs))]
          unfold dupAt
          rw [Bool.and_eq_true, List.any_eq_true]
          constructor
          · rintro ⟨j, hj, ha, hb⟩
            refine ⟨hsupt, ⟨j, List.mem_range.mpr hj, ?_⟩⟩
            rw [Bool.and_eq_true]
            refine ⟨ha, ?_⟩
            rw [hb, hnmidx]
            exact beq_self_eq_true _
          · rintro ⟨hs0, ⟨j, hjm, hj2⟩⟩
            rw [Bool.and_eq_true] at hj2
            refine ⟨j, List.mem_range.mp hjm, hj2.1, ?_⟩
            rw [eq_of_beq hj2.2]
            exact hnmidx
        have hcont : ∀ (l : List String) (x : String), l.contains x = true ↔ x ∈ l :=
          fun l x => List.elem_iff
        have hseen2 : ∀ s, (st.seen ++ [normName idx (Json.obj fs)]).contains s = true ↔
            ∃ j, j < idx + 1 ∧ supportedAt rules j = true ∧ nameAt rules j = s := by
          intro s
          rw [hcont, List.mem_append, List.mem_singleton]
          constructor
          · rintro (hs | hs)
            · obtain ⟨j, hj, ha, hb⟩ := (hseen s).mp ((hcont _ _).mpr hs)
              exact ⟨j, by omega, ha, hb⟩
            · subst hs
              exact ⟨idx, by omega, hsupt, hnmidx⟩
          · rintro ⟨j, hj, ha, hb⟩
            rcases Nat.lt_succ_iff_lt_or_eq.mp hj with hj2 | hj2
            · exact Or.inl ((hcont _ _).mp ((hseen s).mpr ⟨j, hj2, ha, hb⟩))
            · subst hj2
              right
              rw [← hb]
              exact hnmidx
        refine ⟨fun r2 st2 h => ?_, fun res h => ?_⟩
        · simp only [nLoop, hsup, Bool.not_true, Bool.false_eq_true, if_false, hff,
            Bool.and_false, Bool.false_and, if_true] at h
          split at h
          next e he =>
            exact absurd h (by simp)
          next rule2 vIss hrv =>
            obtain ⟨hnm2, hmsg2⟩ := runValidatorR_spec cfg reErr (typeStrOf (Json.obj fs))
              (jset (Json.obj fs) "name" (Json.str (normName idx (Json.obj fs))))
              (normName idx (Json.obj fs)) ("[" ++ toString idx ++ "]") rule2 vIss hrv
            have hname2 : jget rule2 "name" = some (Json.str (normName idx (Json.obj fs))) := by
              rw [hnm2]
              exact jget_jset_self fs "name" (Json.str (normName idx (Json.obj fs)))
            obtain ⟨⟨hlen, hpres, hnames⟩, hfil⟩ :=
              (ih (idx + 1) (done ++ [rule2])
                ⟨_, st.seen ++ [normName idx (Json.obj fs)], _⟩ hrest2 hseen2).1 r2 st2 h
            refine ⟨⟨?_, ?_, ?_⟩, ?_⟩
            · rw [hlen]
              simp
              omega
            · intro k hk
              rw [hpres k (by simp; omega)]
              exact getD_append_lt done _ .null k hk
            · intro k hk
              cases k with
              | zero =>
                have hp := hpres done.length (by simp)
                rw [getD_append_self] at hp
                rw [show done.length + 0 = done.length from rfl, hp]
                rw [hname2]
                rw [show nameAt rules (idx + 0) = normName idx (Json.obj fs) from by
                  rw [show idx + 0 = idx from rfl]
                  exact hnmidx]
              | succ k2 =>
                have hn := hnames k2 (by
                  simp only [List.length_cons] at hk
                  omega)
                rw [show (done ++ [rule2]).length + k2 = done.length + (k2 + 1) from by
                  simp
                  omega] at hn
                rw [show idx + 1 + k2 = idx + (k2 + 1) from by omega] at hn
                exact hn
            · rw [hdup] at hfil
              rw [hfil]
              rw [List.filter_append, List.filter_append]
              rw [show vIss.filter (fun i => i.message == "Duplicate rule name") = [] from
                List.filter_eq_nil_iff.mpr (fun i hi => by simp [hmsg2 i hi])]
              rw [List.append_nil]
              rw [show (Json.obj fs :: rest2).length = rest2.length + 1 from rfl]
              rw [show List.range' idx (rest2.length + 1) =
                  idx :: List.range' (idx + 1) rest2.length from rfl]
              rw [List.filter_cons]
              by_cases hd : dupAt rules idx = true
              · simp only [hd, if_true, eq_self_iff_true]
                simp [List.filter_cons, mkErr, dupIssueAt, hgidx, hnmidx, hidx]
              · have hd2 : dupAt rules idx = false := by
                  cases hdd : dupAt rules idx
                  · rfl
                  · exact absurd hdd hd
                simp only [hd2, Bool.false_eq_true, if_false]
                simp
        · simp only [nLoop, hsup, Bool.not_true, Bool.false_eq_true, if_false, hff,
            Bool.and_false, Bool.false_and, if_true] at h
          split at h
          next e he =>
            exact absurd h (by simp)
          next rule2 vIss hrv =>
            exact (ih (idx + 1) (done ++ [rule2])
              ⟨_, st.seen ++ [normName idx (Json.obj fs)], _⟩ hrest2 hseen2).2 res h
      · -- unsupported type: one ERROR issue, rule auto-named, name not registered
        have hsupf : supportedAt rules idx = false := by
          unfold supportedAt
          rw [hgidx]
          exact Bool.not_eq_true _ |>.mp hsup
        have hseen2 : ∀ s, st.seen.contains s = true ↔
            ∃ j, j < idx + 1 ∧ supportedAt rules j = true ∧ nameAt rules j = s := by
          intro s
          rw [hseen s]
          constructor
          · rintro ⟨j, hj, ha, hb⟩
            exact ⟨j, by omega, ha, hb⟩
          · rintro ⟨j, hj, ha, hb⟩
            refine ⟨j, ?_, ha, hb⟩
            rcases Nat.lt_succ_iff_lt_or_eq.mp hj with hj2 | hj2
            · exact hj2
            · subst hj2
              rw [hsupf] at ha
              cases ha
        have ihh := ih (idx + 1)
          (done ++ [jset (Json.obj fs) "name" (Json.str (normName idx (Json.obj fs)))])
          ⟨st.issues ++ [mkErr (normName idx (Json.obj fs)) (typeStrOf (Json.obj fs))
              ("[" ++ toString idx ++ "]") (unsupportedMsg (typeStrOf (Json.obj fs)))],
           st.seen, st.headersCount⟩ hrest2 hseen2
        refine ⟨fun r2 st2 h => ?_, fun res h => ?_⟩
        · simp only [nLoop, hsup, Bool.not_false, if_true, Bool.false_eq_true, if_false, hff] at h
          obtain ⟨⟨hlen, hpres, hnames⟩, hfil⟩ := ihh.1 r2 st2 h
          refine ⟨⟨?_, ?_, ?_⟩, ?_⟩
          · rw [hlen]
            simp
            omega
          · intro k hk
            rw [hpres k (by simp; omega)]
            exact getD_append_lt done _ .null k hk
          · intro k hk
            cases k with
            | zero =>
              have hp := hpres done.length (by simp)
              rw [getD_append_self] at hp
              rw [show done.length + 0 = done.length from rfl, hp]
              rw [jget_jset_self fs "name" (Json.str (normName idx (Json.obj fs)))]
              rw [show nameAt rules (idx + 0) = normName idx (Json.obj fs) from by
                unfold nameAt
                rw [show idx + 0 = idx from rfl, hgidx]]
            | succ k2 =>
              have hn := hnames k2 (by
                simp only [List.length_cons] at hk
                omega)
              rw [show (done ++ [jset (Json.obj fs) "name"
                    (Json.str (normName idx (Json.obj fs)))]).length + k2 =
                  done.length + (k2 + 1) from by simp; omega] at hn
              rw [show idx + 1 + k2 = idx + (k2 + 1) from by omega] at hn
              exact hn
          · rw [hfil]
            rw [List.filter_append]
            rw [show List.filter (fun i => i.message == "Duplicate rule name")
                [mkErr (normName idx (Json.obj fs)) (typeStrOf (Json.obj fs))
                  ("[" ++ toString idx ++ "]") (unsupportedMsg (typeStrOf (Json.obj fs)))] = []
              from by simp [List.filter_cons, mkErr,
                unsupportedMsg_no_dup (typeStrOf (Json.obj fs))]]
            rw [List.append_nil]
            rw [show (Json.obj fs :: rest2).length = rest2.length + 1 from rfl]
            rw [show List.range' idx (rest2.length + 1) =
                idx :: List.range' (idx + 1) rest2.length from rfl]
            rw [List.filter_cons]
            rw [show dupAt rules idx = false from by simp [dupAt, hsupf]]
            simp
        · simp only [nLoop, hsup, Bool.not_false, if_true, Bool.false_eq_true, if_false, hff] at h
          exact ihh.2 res h

end RuleSchema

namespace RuleSchema

/-- C9: in collect mode `validate` returns successfully; the returned
rules keep their length, every rule carries its normalized name
(`rule_<index>` when empty or missing), `is_valid` is true iff no
ERROR-level issue exists, and the "Duplicate rule name" ERRORs are exactly
those at indices whose supported rule reuses the normalized name of an
EARLIER SUPPORTED rule - a name carried by an unsupported-type rule is
never registered, so a later rule reusing it raises no duplicate issue. -/
theorem normalizer_naming_and_duplicate_detection (cfg : NCfg)
    (reErr : String → Option String) (rules : List Json) (isv : Bool)
    (rules2 : List Json) (issues : List NIssue)
    (hff : cfg.failFast = false)
    (hok : nValidate cfg reErr rules = .ok (isv, rules2, issues)) :
    (isv = true ↔ issues.filter (fun i => i.level == "ERROR") = []) ∧
    rules2.length = rules.length ∧
    (∀ k, k < rules.length →
      jget (rules2.getD k .null) "name" = some (.str (nameAt rules k))) ∧
    issues.filter (fun i => i.message == "Duplicate rule name") =
      (dupIndices rules).map (dupIssueAt rules) := by
  have hspec := nLoop_collect_spec cfg reErr rules hff rules 0 [] ⟨[], [], 0⟩
    (List.drop_zero rules).symm (by intro s; simp)
  unfold nValidate at hok
  split at hok
  next e hnl =>
    exact absurd hok (by simp)
  next res hnl =>
    exact absurd hnl (hspec.2 res)
  next rules2x stx hnl =>
    obtain ⟨⟨hlen, hpres, hnames⟩, hfil⟩ := hspec.1 rules2x stx hnl
    have hinj := Except.ok.inj hok
    injection hinj with h1 hrest
    injection hrest with h2 h3
    subst h1
    subst h2
    subst h3
    refine ⟨by simp [List.isEmpty_iff], by simpa using hlen, ?_, ?_⟩
    · intro k hk
      have hn := hnames k hk
      simpa using hn
    · rw [List.filter_append, List.filter_append]
      rw [show List.filter (fun i => i.message == "Duplicate rule name") stx.issues =
          ((List.range' 0 rules.length).filter (dupAt rules)).map (dupIssueAt rules) from by
        rw [hfil]
        simp]
      rw [show List.filter (fun i => i.message == "Duplicate rule name")
          (if (stx.headersCount == 0 && cfg.datasetColumns.isSome) = true then
            [mkWarn "<schema>" "headers" "$"
              "No 'headers' rule present; column presence not enforced."]
           else []) = [] from by
        cases (stx.headersCount == 0 && cfg.datasetColumns.isSome)
        · simp
        · simp only [if_true]
          decide]
      rw [show List.filter (fun i => i.message == "Duplicate rule name")
          (if decide (1 < stx.headersCount) = true then
            [mkWarn "<schema>" "headers" "$"
              "Multiple 'headers' rules present; consider consolidating."]
           else []) = [] from by
        cases decide (1 < stx.headersCount)
        · simp
        · simp only [if_true]
          decide]
      rw [List.append_nil, List.append_nil]
      unfold dupIndices
      rw [List.range_eq_range']

end RuleSchema

namespace RuleSchema

/-- C9 counterexample: the claim says every rule whose (possibly
auto-generated) name was already seen yields a "Duplicate rule name"
ERROR. In `rulesC9x` the first rule is named "check" but has the
unsupported type "foo", and the second rule is also named "check": the
code `continue`s before registering the first name, so the only issue is
the unsupported-type ERROR and no duplicate issue is raised. -/
theorem normalizer_unseen_duplicate_counterexample :
    nValidate cfgN reNone rulesC9x =
      .ok (false, rulesC9x,
        [NIssue.mk "check" "foo" "[0]" "ERROR" (unsupportedMsg "foo")]) ∧
    List.filter (fun i => i.message == "Duplicate rule name")
      [NIssue.mk "check" "foo" "[0]" "ERROR" (unsupportedMsg "foo")] = [] ∧
    nameAt rulesC9x 0 = "check" ∧ nameAt rulesC9x 1 = "check" := by
  refine ⟨by rfl, by decide, by rfl, by rfl⟩

/-- C9 witness: scenario 4 - two supported rules both named "check" give
exactly one "Duplicate rule name" ERROR and `is_valid = false`. -/
theorem normalizer_naming_and_duplicate_detection_witness :
    (false = true ↔ issuesChk.filter (fun i => i.level == "ERROR") = []) ∧
    rulesChk.length = rulesChk.length ∧
    (∀ k, k < rulesChk.length →
      jget (rulesChk.getD k .null) "name" = some (.str (nameAt rulesChk k))) ∧
    issuesChk.filter (fun i => i.message == "Duplicate rule name") =
      (dupIndices rulesChk).map (dupIssueAt rulesChk) :=
  normalizer_naming_and_duplicate_detection cfgN reNone rulesChk false rulesChk issuesChk
    rfl rfl

end RuleSchema

namespace RuleSchema

/-- C10: the relaxed loader substitutes on the raw text without excluding
JSON string literals, so on `docC10` - a strict-JSON document whose
string value contains the sequence `,` followed by a closing brace -
`load_relaxed` parses a different rule list than `load`: the allowed
value loses its comma. -/
theorem relaxed_loader_alters_string_literals :
    loadRules docC10 =
      .ok [.obj [("type", .str "enum"), ("column", .str "c"),
        ("allowed", .arr [.str "a,\x7d"])]] ∧
    loadRelaxed docC10 =
      .ok [.obj [("type", .str "enum"), ("column", .str "c"),
        ("allowed", .arr [.str "a\x7d"])]] ∧
    ("a,\x7d" == "a\x7d") = false := by
  refine ⟨by rfl, by rfl, by decide⟩

end RuleSchema
